import Mathlib

/-!
# Chinese diesel heater UART decoder (`heater.h`)

A shallow embedding of the `HeaterUart` component: the frame synchronizer
(`loop`, `reset_frame`) and the frame decoder (`parse_frame`) with its two
static lookup tables, followed by the properties proved about them.

Conventions of the embedding.

* `uint8_t` is `Fin 256`; the member array `uint8_t frame[48]` is a total
  function `Fin 48 → Byte`, so reads at the constant offsets are always in
  bounds, while the write `frame[frame_index++] = byte` is checked: a write at
  an index outside `0..47` is undefined behaviour in the source and is `none`
  here.
* `int` members hold values in `0..65535` only and are `Int`; `frame_index`
  only ever counts upwards from `0` and is a `Nat`.
* `float` members are represented by the rational number the stored IEEE 754
  single denotes.  Arithmetic on `double`/`float` rounds to nearest, ties to
  even (`roundNearestEven`).
* the byte source behind `available()`/`read()` is the list of bytes pending
  at the time `loop()` is invoked.
-/

namespace HeaterUart

/-! ## Bytes and the frame buffer -/

/-- The C++ type `uint8_t`. -/
abbrev Byte := Fin 256

/-- The member `uint8_t frame[48]`, and every buffer handed to `parse_frame`. -/
abbrev Frame := Fin 48 → Byte

/-- Local constant `FRAME_SIZE` of `loop`. -/
def FRAME_SIZE : Nat := 48

/-- Local constant `TX_FRAME_END_INDEX` of `loop`. -/
def TX_FRAME_END_INDEX : Nat := 23

/-- Local constant `RX_FRAME_START_INDEX` of `loop`. -/
def RX_FRAME_START_INDEX : Fin 48 := 24

/-- Local constant `END_OF_FRAME_MARKER` of `loop`. -/
def END_OF_FRAME_MARKER : Byte := 0x00

/-- The start-of-frame byte `0x76` that `loop` compares against. -/
def START_MARKER : Byte := 0x76

/-! ## Floating point -/

/-- IEEE 754 rounding of the rational `q` to a binary format with a `p`-bit
significand: round to nearest, ties to the even significand.  The exponent is
not bounded, so the result is the IEEE result whenever `q` is `0` or `|q|` lies
in the normal range of the format; the values rounded for `parse_frame` are
`1/10`, `1/100`, the integers `0..65535` and their products with these two
constants, all of them `0` or between `2^-7` and `2^16`. -/
def roundNearestEven (p : Nat) (q : ℚ) : ℚ :=
  if q = 0 then 0 else
  let ulp : ℚ := (2 : ℚ) ^ (Int.log 2 |q| - (p : Int) + 1)
  let n : ℚ := |q| / ulp
  let m : Int := ⌊n⌋
  let r : ℚ := n - m
  let m' : Int :=
    if r < 1 / 2 then m else if 1 / 2 < r then m + 1 else if m % 2 = 0 then m else m + 1
  (if q < 0 then -1 else 1) * (m' : ℚ) * ulp

/-- Rounding to `double` (binary64, 53-bit significand). -/
def toDouble (q : ℚ) : ℚ := roundNearestEven 53 q

/-- Rounding to `float` (binary32, 24-bit significand). -/
def toFloat (q : ℚ) : ℚ := roundNearestEven 24 q

/-- The `double` literal `0.1`. -/
def double_0_1 : ℚ := toDouble (1 / 10)

/-- The `double` literal `0.01`. -/
def double_0_01 : ℚ := toDouble (1 / 100)

/-- The expression `n * c` for an `int` `n` and a `double` `c`, assigned to a
`float` member: `n` is converted to `double`, the product is rounded to
`double`, and the assignment rounds it to `float`. -/
def scaleToFloat (n : Int) (c : ℚ) : ℚ := toFloat (toDouble (toDouble (n : ℚ) * c))

/-! ## Telemetry and the lookup tables -/

/-- The parsed data values of `HeaterUart` (the private members from
`set_temperature_value` to `error_code_description`). -/
structure Telemetry where
  set_temperature_value : ℚ
  desired_temperature_value : Int
  fan_speed_value : Int
  measured_voltage : ℚ
  heat_exchanger_temp_value : ℚ
  glow_plug_voltage_value : ℚ
  glow_plug_current_value : ℚ
  pump_frequency_value : ℚ
  error_code_value : Int
  run_state_value : Int
  on_off_value : Int
  fan_voltage_value : ℚ
  run_state_description : String
  error_code_description : String
  deriving DecidableEq

/-- The default member initializers of the parsed data values. -/
def Telemetry.init : Telemetry where
  set_temperature_value := 0
  desired_temperature_value := 0
  fan_speed_value := 0
  measured_voltage := 0
  heat_exchanger_temp_value := 0
  glow_plug_voltage_value := 0
  glow_plug_current_value := 0
  pump_frequency_value := 0
  error_code_value := 0
  run_state_value := 0
  on_off_value := 0
  fan_voltage_value := 0
  run_state_description := "Unknown"
  error_code_description := "Unknown"

/-- The member `run_state_map`. -/
def run_state_map : List (Int × String) :=
  [(0, "Off / Standby"), (1, "Start Acknowledge"), (2, "Glow plug pre-heat"),
   (3, "Failed ignition - pausing for retry"), (4, "Ignited – heating to full temp phase"),
   (5, "Running"), (6, "Skipped – stop acknowledge?"),
   (7, "Stopping - Post run glow re-heat"), (8, "Cooldown")]

/-- The member `error_code_map`. -/
def error_code_map : List (Int × String) :=
  [(0, "No Error"), (1, "No Error, but started"), (2, "Voltage too low"),
   (3, "Voltage too high"), (4, "Ignition plug failure"),
   (5, "Pump Failure – over current"), (6, "Too hot"), (7, "Motor Failure"),
   (8, "Serial connection lost"), (9, "Fire is extinguished"),
   (10, "Temperature sensor failure")]

/-- The method `std::map::count`: the number of entries with key `k`. -/
def map_count (m : List (Int × String)) (k : Int) : Nat :=
  if (m.lookup k).isSome then 1 else 0

/-- The method `std::map::at`, which throws when the key is absent. -/
def map_at (m : List (Int × String)) (k : Int) : Option String := m.lookup k

/-- The expression `m.count(k) ? m.at(k) : fallback`; `at` is only evaluated
when `count` is not zero, where it cannot throw. -/
def describe (m : List (Int × String)) (k : Int) (fallback : String) : String :=
  if map_count m k ≠ 0 then
    match map_at m k with
    | some d => d
    | none => fallback
  else fallback

/-! ## The frame decoder -/

/-- The pointer `command_frame = &frame[0]`. -/
def command_frame (frame : Frame) (i : Fin 24) : Byte := frame ⟨i.val, by omega⟩

/-- The pointer `response_frame = &frame[24]`. -/
def response_frame (frame : Frame) (i : Fin 24) : Byte := frame ⟨24 + i.val, by omega⟩

/-- The expression `(hi << 8) | lo` on two bytes promoted to `int`. -/
def be16 (hi lo : Byte) : Int := (((hi.val <<< 8) ||| lo.val : Nat) : Int)

/-- The method `parse_frame(frame, length)`, acting on the parsed data values. -/
def parse_frame (t : Telemetry) (frame : Frame) (length : Nat) : Telemetry :=
  if length ≠ 48 then t
  else
    let c := command_frame frame
    let r := response_frame frame
    let error_code : Int := ((r 17).val : Int)
    let run_state : Int := ((r 2).val : Int)
    { set_temperature_value := toFloat (((c 3).val : Int) : ℚ)
      desired_temperature_value := ((c 4).val : Int)
      fan_speed_value := be16 (r 6) (r 7)
      measured_voltage := scaleToFloat (be16 (r 4) (r 5)) double_0_1
      heat_exchanger_temp_value := toFloat ((be16 (r 10) (r 11) : Int) : ℚ)
      glow_plug_voltage_value := scaleToFloat (be16 (r 12) (r 13)) double_0_1
      glow_plug_current_value := scaleToFloat (be16 (r 14) (r 15)) double_0_01
      pump_frequency_value := scaleToFloat ((r 16).val : Int) double_0_1
      error_code_value := error_code
      run_state_value := run_state
      on_off_value := if r 3 = 1 then 1 else 0
      fan_voltage_value := scaleToFloat (be16 (r 8) (r 9)) double_0_1
      run_state_description := describe run_state_map run_state "Unknown Run State"
      error_code_description := describe error_code_map error_code "Unknown Error Code" }

end HeaterUart

/-! ## The frame synchronizer -/

/-- The state of a `HeaterUart` object that `loop` and `parse_frame` use: the
parsed data values, the frame buffer, the fill count and the mode flag. -/
structure HeaterUart where
  telemetry : HeaterUart.Telemetry
  frame : HeaterUart.Frame
  frame_index : Nat
  waiting_for_start : Bool

namespace HeaterUart

/-- A freshly constructed object.  The array `frame` has no initializer, so
its contents `g` are arbitrary. -/
def init (g : Frame) : HeaterUart where
  telemetry := Telemetry.init
  frame := g
  frame_index := 0
  waiting_for_start := true

/-- The method `reset_frame()`. -/
def reset_frame (s : HeaterUart) : HeaterUart :=
  { s with frame_index := 0, waiting_for_start := true }

/-- The statement `frame[frame_index++] = byte`; `none` when the index is
outside the array. -/
def store (s : HeaterUart) (byte : Byte) : Option HeaterUart :=
  if h : s.frame_index < 48 then
    some { s with frame := Function.update s.frame ⟨s.frame_index, h⟩ byte,
                  frame_index := s.frame_index + 1 }
  else none

/-- How one pass through the body of the `while` loop ends: by falling through
to the loop test, or by the `return` statement. -/
inductive Flow where
  | next
  | returned
  deriving DecidableEq

/-- The outcome of one pass through the body of the `while` loop: the new
state, the buffers `parse_frame` was invoked on during the pass, and how the
pass ended. -/
structure Pass where
  state : HeaterUart
  parsed : List Frame
  flow : Flow

/-- The body of the `while` loop of `loop()`, for the byte just read. -/
def loopBody (s : HeaterUart) (byte : Byte) : Option Pass :=
  if s.waiting_for_start then
    if byte = START_MARKER then
      match store s byte with
      | none => none
      | some s1 => some ⟨{ s1 with waiting_for_start := false }, [], Flow.next⟩
    else some ⟨s, [], Flow.next⟩
  else
    match store s byte with
    | none => none
    | some s1 =>
      if s1.frame_index = TX_FRAME_END_INDEX + 1 ∧ s1.frame 21 = END_OF_FRAME_MARKER then
        some ⟨reset_frame s1, [], Flow.returned⟩
      else if s1.frame_index = FRAME_SIZE then
        if s1.frame 45 = END_OF_FRAME_MARKER ∧ s1.frame RX_FRAME_START_INDEX = START_MARKER then
          some ⟨reset_frame { s1 with telemetry := parse_frame s1.telemetry s1.frame FRAME_SIZE },
                [s1.frame], Flow.next⟩
        else some ⟨reset_frame s1, [], Flow.next⟩
      else some ⟨s1, [], Flow.next⟩

/-- The outcome of one invocation of `loop()`: the final state, the bytes left
unread in the source, the buffers `parse_frame` was invoked on, in order, and
whether the invocation ended at the loop test or by the `return` statement. -/
structure Outcome where
  state : HeaterUart
  pending : List Byte
  parsed : List Frame
  flow : Flow

/-- The outcome of an invocation that continues after the buffers `calls` have
already been handed to `parse_frame`. -/
def Outcome.prepend (calls : List Frame) (r : Outcome) : Outcome :=
  ⟨r.state, r.pending, calls ++ r.parsed, r.flow⟩

/-- The method `loop()` run on a byte source holding `pending`: the body is
repeated while a byte is available, and the `return` statement ends the
invocation with the rest of the bytes still pending. -/
def loop (s : HeaterUart) : List Byte → Option Outcome
  | [] => some ⟨s, [], [], Flow.next⟩
  | byte :: rest =>
    match loopBody s byte with
    | none => none
    | some ⟨s1, calls, Flow.returned⟩ => some ⟨s1, rest, calls, Flow.returned⟩
    | some ⟨s1, calls, Flow.next⟩ => (loop s1 rest).map (Outcome.prepend calls)

/-- Repeated invocations of `loop()`, each on what the previous one left
pending, until the source is empty or `n` invocations have been made. -/
def feed : Nat → HeaterUart → List Byte → Option Outcome
  | 0, s, pending => some ⟨s, pending, [], Flow.next⟩
  | _ + 1, s, [] => some ⟨s, [], [], Flow.next⟩
  | n + 1, s, byte :: rest =>
    match loop s (byte :: rest) with
    | none => none
    | some r => (feed n r.state r.pending).map (Outcome.prepend r.parsed)

/-- The states an object can be in between two bytes: those obtained from a
freshly constructed object by passes through the loop body. -/
inductive Reachable : HeaterUart → Prop where
  | init (g : Frame) : Reachable (init g)
  | pass {s : HeaterUart} {byte : Byte} {r : Pass} :
      Reachable s → loopBody s byte = some r → Reachable r.state

/-! ## Auxiliary definitions for the proofs -/

/-- The bytes of a 48-byte sequence, in order. -/
def bytes (f : Frame) : List Byte := List.ofFn f

/-- The state in which the first `k` bytes of the candidate `f` have been
accumulated, starting from the state `s`. -/
def filled (s : HeaterUart) (f : Frame) (k : Nat) : HeaterUart :=
  { s with frame := fun i => if i.val < k then f i else s.frame i,
           frame_index := k, waiting_for_start := false }

/-- The state after the candidate `f` has been accumulated in full, starting
from the state `s`, and the synchronizer has validated it and reset. -/
def completed (s : HeaterUart) (f : Frame) : HeaterUart :=
  { telemetry := if f 45 = END_OF_FRAME_MARKER ∧ f 24 = START_MARKER
      then parse_frame s.telemetry f FRAME_SIZE else s.telemetry,
    frame := f, frame_index := 0, waiting_for_start := true }

/-- The invariant of the synchronizer between two bytes: either it is seeking
the start marker with an empty buffer, or it is accumulating and the buffer
holds between 1 and 47 bytes. -/
def Inv (s : HeaterUart) : Prop :=
  (s.waiting_for_start = true ∧ s.frame_index = 0) ∨
  (s.waiting_for_start = false ∧ 1 ≤ s.frame_index ∧ s.frame_index ≤ 47)

/-- A candidate frame with both start markers in place, byte 21 set to `0x01`
and every other byte `0x00`, so that byte 45 is the end-of-frame marker. -/
def sampleFrame : Frame := fun i => if i = 0 ∨ i = 24 then 0x76 else if i = 21 then 0x01 else 0x00

/-- An arbitrary initial content of the frame buffer. -/
def sampleGarbage : Frame := fun _ => 0xFF

/-- A frame whose response half has `R[5] = 0x01` and every other byte `0x00`. -/
def oneTenthFrame : Frame := fun i => if i = 29 then 0x01 else 0x00

/-- A frame whose response half has `R[4..6) = [0x00, 0x64]`. -/
def tenVoltFrame : Frame := fun i => if i = 29 then 0x64 else 0x00

/-- A frame whose response half has `R[16] = 0x01` and every other byte `0x00`. -/
def slowPumpFrame : Frame := fun i => if i = 40 then 0x01 else 0x00

/-- A frame whose response half has `R[3] = 0x01` and every other byte `0x00`. -/
def switchedOnFrame : Frame := fun i => if i = 27 then 0x01 else 0x00

/-- A frame whose response half has `R[2] = 5` and `R[17] = 4`. -/
def runningFrame : Frame := fun i => if i = 26 then 5 else if i = 41 then 4 else 0x00

/-- A frame whose response half has `R[2] = 99` and `R[17] = 255`. -/
def unknownCodesFrame : Frame := fun i => if i = 26 then 99 else if i = 41 then 255 else 0x00

/-- A candidate frame with the start marker at offset 0 only: byte 24 is not
the start marker. -/
def misalignedFrame : Frame := fun i => if i = 0 then 0x76 else if i = 21 then 0x01 else 0x00

/-- A candidate frame whose byte 21 is the end-of-frame marker although both
start markers and the end marker at offset 45 are in place. -/
def prematureFrame : Frame := fun i => if i = 0 ∨ i = 24 then 0x76 else 0x00

/-- Whether consuming `byte` in state `s` is a premature end: the synchronizer
is accumulating, the byte brings the fill count to 24, and `frame[21]` then
holds the end-of-frame marker. -/
def prematureEnd (s : HeaterUart) (byte : Byte) : Bool :=
  !s.waiting_for_start &&
    match store s byte with
    | some s1 => decide (s1.frame_index = 24) && decide (s1.frame 21 = END_OF_FRAME_MARKER)
    | none => false

/-- The position (counted from 1) of the first byte of `pending` whose
consumption is a premature end, when the bytes are consumed in order starting
in state `s`; `none` when there is no such byte. -/
def firstDiscard : HeaterUart → List Byte → Option Nat
  | _, [] => none
  | s, byte :: rest =>
    if prematureEnd s byte then some 1
    else
      match loopBody s byte with
      | none => none
      | some r => (firstDiscard r.state rest).map (· + 1)

/-- What one invocation of `loop` on `p` from state `s` yields, in terms of the
first premature end in `p`: without one, every byte is consumed; with the
first one at position `k`, the invocation returns right after the `k`-th byte,
in SeekingStart with fill count 0, with the Telemetry and the `parse_frame`
calls of the first `k - 1` bytes, and with the bytes after the `k`-th pending. -/
def ShortCircuit (s : HeaterUart) (p : List Byte) (r : Outcome) : Prop :=
  (firstDiscard s p = none → r.pending = [] ∧ r.flow = Flow.next) ∧
  (∀ k, firstDiscard s p = some k →
    1 ≤ k ∧ k ≤ p.length ∧ r.flow = Flow.returned ∧ r.pending = p.drop k ∧
      r.state.waiting_for_start = true ∧ r.state.frame_index = 0 ∧
      ∃ r0 b, loop s (p.take (k - 1)) = some r0 ∧ r0.flow = Flow.next ∧ r0.pending = [] ∧
        p[k - 1]? = some b ∧ prematureEnd r0.state b = true ∧
        r.state.telemetry = r0.state.telemetry ∧ r.parsed = r0.parsed)

/-- A byte source in which a premature end occurs after 24 of its 30 bytes. -/
def interruptedSource : List Byte := (bytes prematureFrame).take 30

/-- Whether consuming `byte` in state `s` completes a frame that passes the
validation: the synchronizer is accumulating, the byte brings the fill count to
48, and the buffer then holds the end-of-frame marker at offset 45 and the
start marker at offset 24. -/
def completesValidFrame (s : HeaterUart) (byte : Byte) : Prop :=
  s.waiting_for_start = false ∧
    ∃ s1, store s byte = some s1 ∧ s1.frame_index = 48 ∧
      s1.frame 45 = END_OF_FRAME_MARKER ∧ s1.frame 24 = START_MARKER

/-- The state reached and the buffers handed to `parse_frame`, in order, once
the bytes of `stream` have all been consumed in order, over however many
invocations of `loop()` that takes. -/
def run (s : HeaterUart) : List Byte → Option (HeaterUart × List Frame)
  | [] => some (s, [])
  | byte :: rest =>
    match loopBody s byte with
    | none => none
    | some r => (run r.state rest).map (fun x => (x.1, r.parsed ++ x.2))

/-- The markers of a validated frame. -/
def Validated (w : Frame) : Prop :=
  w 0 = START_MARKER ∧ w 21 ≠ END_OF_FRAME_MARKER ∧ w 24 = START_MARKER ∧
    w 45 = END_OF_FRAME_MARKER

/-- The buffer `w` holds 48 consecutive bytes of the history `hist`, which
lists the consumed bytes from the most recent one backwards; `m` is the number
of bytes consumed after the window. -/
def WindowAt (hist : List Byte) (m : Nat) (w : Frame) : Prop :=
  ∀ i : Fin 48, hist[m + (47 - i.val)]? = some (w i)

/-- The Telemetry is the initial one or the decoder's output on a validated
window of the history. -/
def Decoded (hist : List Byte) (t : Telemetry) : Prop :=
  t = Telemetry.init ∨
    ∃ w m, Validated w ∧ WindowAt hist m w ∧ t = parse_frame Telemetry.init w 48

/-- The link between a state and the history of the bytes consumed so far
(most recent first): the bytes in the buffer below the fill count are the most
recent ones, the frame in progress began with the start marker, it passed the
check of offset 21 if it has 24 bytes or more, and the Telemetry stems from a
validated window. -/
def Tracks (hist : List Byte) (s : HeaterUart) : Prop :=
  Inv s ∧
  (∀ i : Fin 48, i.val < s.frame_index → hist[s.frame_index - 1 - i.val]? = some (s.frame i)) ∧
  (s.waiting_for_start = false → s.frame 0 = START_MARKER) ∧
  (s.waiting_for_start = false → 24 ≤ s.frame_index → s.frame 21 ≠ END_OF_FRAME_MARKER) ∧
  Decoded hist s.telemetry

/-- Two states that can differ only in the buffer positions at or above the
fill count, that is, in positions not written since the last reset. -/
def AgreeWritten (s1 s2 : HeaterUart) : Prop :=
  s1.telemetry = s2.telemetry ∧ s1.frame_index = s2.frame_index ∧
    s1.waiting_for_start = s2.waiting_for_start ∧
    ∀ i : Fin 48, i.val < s1.frame_index → s1.frame i = s2.frame i

/-- A candidate frame that passes every check of the synchronizer although the
last byte of its response half, at offset 47, is `0x01`. -/
def trailingFrame : Frame :=
  fun i => if i = 0 ∨ i = 24 then 0x76 else if i = 21 ∨ i = 47 then 0x01 else 0x00

/-- A second arbitrary initial content of the frame buffer. -/
def otherGarbage : Frame := fun i => ⟨i.val, by omega⟩

/-- The state of a freshly constructed object after the first five bytes of
`sampleFrame` have been consumed. -/
def accumulatingState : HeaterUart := filled (init sampleGarbage) sampleFrame 5

/-! ## Lemmas on rounding and on the decoder -/

/-- The integer chosen by round-to-nearest-even is within one half of the
scaled value. -/
theorem nearest_even_close (n : ℚ) :
    |(((if n - (⌊n⌋ : ℚ) < 1 / 2 then ⌊n⌋ else if 1 / 2 < n - (⌊n⌋ : ℚ) then ⌊n⌋ + 1
        else if ⌊n⌋ % 2 = 0 then ⌊n⌋ else ⌊n⌋ + 1 : Int) : ℚ)) - n| ≤ 1 / 2 := by
  have h1 : (⌊n⌋ : ℚ) ≤ n := Int.floor_le n
  have h2 : n < (⌊n⌋ : ℚ) + 1 := Int.lt_floor_add_one n
  rw [abs_le]
  split_ifs with ha hb hc
  · constructor <;> linarith
  · push_cast; constructor <;> linarith
  · have : n - (⌊n⌋ : ℚ) = 1 / 2 := le_antisymm (not_lt.mp hb) (not_lt.mp ha)
    constructor <;> linarith
  · have : n - (⌊n⌋ : ℚ) = 1 / 2 := le_antisymm (not_lt.mp hb) (not_lt.mp ha)
    push_cast; constructor <;> linarith

theorem roundNearestEven_error (p : Nat) (q : ℚ) :
    |roundNearestEven p q - q| ≤ |q| / 2 ^ p := by
  by_cases hq : q = 0
  · simp [roundNearestEven, hq]
  have ha : 0 < |q| := abs_pos.mpr hq
  have hulp : (0 : ℚ) < (2 : ℚ) ^ (Int.log 2 |q| - (p : Int) + 1) := by positivity
  have hlog : ((2 : ℕ) : ℚ) ^ Int.log 2 |q| ≤ |q| := Int.zpow_log_le_self (by norm_num) ha
  simp only [roundNearestEven, hq, if_false]
  set ulp : ℚ := (2 : ℚ) ^ (Int.log 2 |q| - (p : Int) + 1) with hu
  set n : ℚ := |q| / ulp with hn
  have hclose := nearest_even_close n
  set m' : Int := (if n - (⌊n⌋ : ℚ) < 1 / 2 then ⌊n⌋ else if 1 / 2 < n - (⌊n⌋ : ℚ) then ⌊n⌋ + 1
        else if ⌊n⌋ % 2 = 0 then ⌊n⌋ else ⌊n⌋ + 1 : Int) with hm
  have hnu : n * ulp = |q| := by rw [hn]; field_simp
  have hdiff : |(if q < 0 then (-1 : ℚ) else 1) * (m' : ℚ) * ulp - q|
      = |(m' : ℚ) - n| * ulp := by
    rw [← abs_of_pos hulp, ← abs_mul, abs_of_pos hulp]
    by_cases hneg : q < 0
    · have hqa : q = -|q| := by rw [abs_of_neg hneg]; ring
      rw [if_pos hneg]
      have e : (-1 : ℚ) * (m' : ℚ) * ulp - q = -(((m' : ℚ) - n) * ulp) := by
        rw [sub_mul, hnu]; linarith
      rw [e, abs_neg]
    · have hqa : q = |q| := by rw [abs_of_nonneg (not_lt.mp hneg)]
      rw [if_neg hneg]
      have e : (1 : ℚ) * (m' : ℚ) * ulp - q = ((m' : ℚ) - n) * ulp := by
        rw [sub_mul, hnu]; linarith
      rw [e]
  rw [hdiff]
  have hhalf : ulp / 2 ≤ |q| / 2 ^ p := by
    have e : ulp = (2 : ℚ) ^ Int.log 2 |q| * 2 / 2 ^ p := by
      rw [hu, zpow_add₀ (by norm_num), zpow_sub₀ (by norm_num), zpow_natCast, zpow_one]
      ring
    rw [e]
    have h2p : (0 : ℚ) < 2 ^ p := by positivity
    have : (2 : ℚ) ^ Int.log 2 |q| * 2 / 2 ^ p / 2 = (2 : ℚ) ^ Int.log 2 |q| / 2 ^ p := by ring
    rw [this]
    apply div_le_div_of_nonneg_right _ h2p.le
    exact_mod_cast hlog
  calc |(m' : ℚ) - n| * ulp ≤ 1 / 2 * ulp := by
        apply mul_le_mul_of_nonneg_right hclose hulp.le
    _ = ulp / 2 := by ring
    _ ≤ |q| / 2 ^ p := hhalf

theorem roundNearestEven_natCast (p n : Nat) (h : n < 2 ^ p) :
    roundNearestEven p (n : ℚ) = n := by
  by_cases hn : n = 0
  · simp [roundNearestEven, hn]
  have hq : ¬ ((n : ℚ) = 0) := by exact_mod_cast hn
  have hlt : Nat.log 2 n < p := Nat.log_lt_of_lt_pow hn h
  obtain ⟨k, hk⟩ : ∃ k : Nat, p = Nat.log 2 n + 1 + k := ⟨p - (Nat.log 2 n + 1), by omega⟩
  have habs : |(n : ℚ)| = n := abs_of_nonneg (by positivity)
  have hulp : (2 : ℚ) ^ (Int.log 2 |(n : ℚ)| - (p : Int) + 1) = 1 / 2 ^ k := by
    rw [habs, Int.log_natCast, hk]
    have : ((Nat.log 2 n : ℕ) : ℤ) - ((Nat.log 2 n + 1 + k : ℕ) : ℤ) + 1 = -(k : ℤ) := by
      push_cast; ring
    rw [this, zpow_neg, zpow_natCast, one_div]
  have hdiv : |(n : ℚ)| / (1 / 2 ^ k) = ((n * 2 ^ k : ℕ) : ℚ) := by
    rw [habs]; push_cast; field_simp
  have hnn : ¬ ((n : ℚ) < 0) := not_lt.mpr (by positivity)
  simp only [roundNearestEven, hq, if_false, hulp, hdiv, hnn]
  rw [show ⌊((n * 2 ^ k : ℕ) : ℚ)⌋ = ((n * 2 ^ k : ℕ) : ℤ) from Int.floor_natCast _]
  simp only [Int.cast_natCast, sub_self]
  norm_num

/-- The `double` literals `0.1` and `0.01` are the binary64 numbers with bit
patterns `0x3FB999999999999A` and `0x3F847AE147AE147B`, and `0.1` stored in a
`float` is the binary32 number with bit pattern `0x3DCCCCCD`. -/
theorem literal_values :
    double_0_1 = 0x1999999999999A / 2 ^ 56 ∧ double_0_01 = 0x147AE147AE147B / 2 ^ 59 ∧
      toFloat double_0_1 = 0xCCCCCD / 2 ^ 27 := by
  decide!

theorem be16_eq (hi lo : Byte) : be16 hi lo = ((256 * hi.val + lo.val : ℕ) : ℤ) := by
  have h := Nat.mul_add_lt_is_or (show lo.val < 2 ^ 8 from lo.isLt) hi.val
  simp only [be16, Nat.shiftLeft_eq, Nat.mul_comm _ (2 ^ 8), ← h]

theorem be16_le (hi lo : Byte) : 256 * hi.val + lo.val ≤ 65535 := by
  have := hi.isLt; have := lo.isLt; omega

theorem toDouble_natCast (n : Nat) (h : n < 2 ^ 53) : toDouble (n : ℚ) = n :=
  roundNearestEven_natCast 53 n h

theorem toFloat_natCast (n : Nat) (h : n < 2 ^ 24) : toFloat (n : ℚ) = n :=
  roundNearestEven_natCast 24 n h

/-- Scaling a natural number by the `double` nearest a positive rational `q`
and storing the product in a `float` gives `n * q` up to a relative error of
`2^-23`. -/
theorem scaleToFloat_error (n : Nat) (q : ℚ) (hn : n < 2 ^ 53) (hq : 0 < q) :
    |scaleToFloat (n : ℤ) (toDouble q) - n * q| ≤ n * q / 2 ^ 23 := by
  have hA : (0 : ℚ) ≤ n * q := by positivity
  have hc := roundNearestEven_error 53 q
  rw [abs_of_pos hq] at hc
  have hd := roundNearestEven_error 53 ((n : ℚ) * toDouble q)
  have hf := roundNearestEven_error 24 (toDouble ((n : ℚ) * toDouble q))
  simp only [scaleToFloat, Int.cast_natCast, toDouble_natCast n hn]
  simp only [toFloat, toDouble] at *
  set c := roundNearestEven 53 q
  set d := roundNearestEven 53 ((n : ℚ) * c)
  set fl := roundNearestEven 24 d
  have hp : |(n : ℚ) * c - n * q| ≤ n * q / 2 ^ 53 := by
    rw [← mul_sub, abs_mul, abs_of_nonneg (by positivity : (0 : ℚ) ≤ n), mul_div_assoc]
    exact mul_le_mul_of_nonneg_left hc (by positivity)
  have hpa : |(n : ℚ) * c| ≤ n * q + n * q / 2 ^ 53 := by
    have := abs_sub_abs_le_abs_sub ((n : ℚ) * c) (n * q)
    rw [abs_of_nonneg hA] at this
    linarith
  have hda : |d| ≤ |(n : ℚ) * c| + |(n : ℚ) * c| / 2 ^ 53 := by
    have := abs_sub_abs_le_abs_sub d ((n : ℚ) * c)
    linarith
  have e : fl - n * q = (fl - d) + (d - n * c) + (n * c - n * q) := by ring
  have h3 := abs_add_three (fl - d) (d - n * c) (n * c - n * q)
  rw [e]
  have b1 : |(n : ℚ) * c| / 2 ^ 53 ≤ (n * q + n * q / 2 ^ 53) / 2 ^ 53 :=
    div_le_div_of_nonneg_right hpa (by positivity)
  have b2 : |d| / 2 ^ 24 ≤ ((n * q + n * q / 2 ^ 53) + (n * q + n * q / 2 ^ 53) / 2 ^ 53) / 2 ^ 24 :=
    div_le_div_of_nonneg_right (by linarith) (by positivity)
  have key : ((n * q + n * q / 2 ^ 53) + (n * q + n * q / 2 ^ 53) / 2 ^ 53) / 2 ^ 24
      + (n * q + n * q / 2 ^ 53) / 2 ^ 53 + n * q / 2 ^ 53 ≤ (n : ℚ) * q / 2 ^ 23 := by
    have : ((n * q + n * q / 2 ^ 53) + (n * q + n * q / 2 ^ 53) / 2 ^ 53) / 2 ^ 24
      + (n * q + n * q / 2 ^ 53) / 2 ^ 53 + n * q / 2 ^ 53
        = (n : ℚ) * q * (((1 + 1 / 2 ^ 53) + (1 + 1 / 2 ^ 53) / 2 ^ 53) / 2 ^ 24
          + (1 + 1 / 2 ^ 53) / 2 ^ 53 + 1 / 2 ^ 53) := by ring
    rw [this, show (n : ℚ) * q / 2 ^ 23 = (n : ℚ) * q * (1 / 2 ^ 23) by ring]
    apply mul_le_mul_of_nonneg_left _ hA
    norm_num
  linarith

theorem parse_frame_fields (t : Telemetry) (f : Frame) :
    parse_frame t f 48 =
      { set_temperature_value := toFloat (((command_frame f 3).val : Int) : ℚ)
        desired_temperature_value := ((command_frame f 4).val : Int)
        fan_speed_value := be16 (response_frame f 6) (response_frame f 7)
        measured_voltage := scaleToFloat (be16 (response_frame f 4) (response_frame f 5)) double_0_1
        heat_exchanger_temp_value :=
          toFloat ((be16 (response_frame f 10) (response_frame f 11) : Int) : ℚ)
        glow_plug_voltage_value :=
          scaleToFloat (be16 (response_frame f 12) (response_frame f 13)) double_0_1
        glow_plug_current_value :=
          scaleToFloat (be16 (response_frame f 14) (response_frame f 15)) double_0_01
        pump_frequency_value := scaleToFloat ((response_frame f 16).val : Int) double_0_1
        error_code_value := ((response_frame f 17).val : Int)
        run_state_value := ((response_frame f 2).val : Int)
        on_off_value := if response_frame f 3 = 1 then 1 else 0
        fan_voltage_value := scaleToFloat (be16 (response_frame f 8) (response_frame f 9)) double_0_1
        run_state_description :=
          describe run_state_map ((response_frame f 2).val : Int) "Unknown Run State"
        error_code_description :=
          describe error_code_map ((response_frame f 17).val : Int) "Unknown Error Code" } := by
  simp [parse_frame]

theorem scaled_field (hi lo : Byte) (q : ℚ) (hq : 0 < q) :
    scaleToFloat (be16 hi lo) (toDouble q)
        = toFloat (toDouble (((256 * hi.val + lo.val : ℕ) : ℚ) * toDouble q)) ∧
      |scaleToFloat (be16 hi lo) (toDouble q) - ((256 * hi.val + lo.val : ℕ) : ℚ) * q|
        ≤ ((256 * hi.val + lo.val : ℕ) : ℚ) * q / 2 ^ 23 := by
  have hle := be16_le hi lo
  have hlt : 256 * hi.val + lo.val < 2 ^ 53 := by
    have : (65535 : ℕ) < 2 ^ 53 := by norm_num
    omega
  rw [be16_eq]
  refine ⟨?_, scaleToFloat_error _ q hlt hq⟩
  simp only [scaleToFloat, Int.cast_natCast, toDouble_natCast _ hlt]

theorem run_state_unknown_iff : ∀ b : Byte,
    (describe run_state_map (b.val : ℤ) "Unknown Run State" = "Unknown Run State" ↔ 9 ≤ b.val) := by
  decide!

theorem error_code_unknown_iff : ∀ b : Byte,
    (describe error_code_map (b.val : ℤ) "Unknown Error Code" = "Unknown Error Code"
      ↔ 11 ≤ b.val) := by
  decide!

theorem run_state_injective : ∀ a b : Fin 9,
    describe run_state_map (a.val : ℤ) "Unknown Run State"
      = describe run_state_map (b.val : ℤ) "Unknown Run State" → a = b := by
  decide

theorem error_code_injective : ∀ a b : Fin 11,
    describe error_code_map (a.val : ℤ) "Unknown Error Code"
      = describe error_code_map (b.val : ℤ) "Unknown Error Code" → a = b := by
  decide

theorem describe_of_mem_run_state (k : ℤ) (d : String) (h : (k, d) ∈ run_state_map) :
    describe run_state_map k "Unknown Run State" = d := by
  simp only [run_state_map, List.mem_cons, Prod.mk.injEq, List.mem_singleton, List.not_mem_nil,
    or_false] at h
  rcases h with h | h | h | h | h | h | h | h | h <;> obtain ⟨rfl, rfl⟩ := h <;> decide

theorem describe_of_mem_error_code (k : ℤ) (d : String) (h : (k, d) ∈ error_code_map) :
    describe error_code_map k "Unknown Error Code" = d := by
  simp only [error_code_map, List.mem_cons, Prod.mk.injEq, List.mem_singleton, List.not_mem_nil,
    or_false] at h
  rcases h with h | h | h | h | h | h | h | h | h | h | h <;> obtain ⟨rfl, rfl⟩ := h <;> decide

theorem map_at_of_count (m : List (Int × String)) (k : ℤ) (h : map_count m k ≠ 0) :
    ∃ d, map_at m k = some d := by
  unfold map_count at h
  unfold map_at
  cases hl : m.lookup k with
  | none => simp [hl] at h
  | some d => exact ⟨d, rfl⟩

theorem run_state_description_eq (t : Telemetry) (f : Frame) :
    (parse_frame t f 48).run_state_description
      = describe run_state_map ((f 26).val : ℤ) "Unknown Run State" := by
  rw [parse_frame_fields]; rfl

theorem error_code_description_eq (t : Telemetry) (f : Frame) :
    (parse_frame t f 48).error_code_description
      = describe error_code_map ((f 41).val : ℤ) "Unknown Error Code" := by
  rw [parse_frame_fields]; rfl

/-! ## Lemmas on the loop body and on `loop` -/

theorem update_filled (g f : Frame) (k : Nat) (hlt : k < 48) :
    Function.update (fun i : Fin 48 => if i.val < k then f i else g i) ⟨k, hlt⟩ (f ⟨k, hlt⟩)
      = fun i => if i.val < k + 1 then f i else g i := by
  funext i
  by_cases h : i = ⟨k, hlt⟩
  · subst h; simp
  · have hne : i.val ≠ k := fun h1 => h (Fin.ext h1)
    have : (i.val < k) ↔ (i.val < k + 1) := by omega
    simp [Function.update, h, this]

theorem loopBody_start (s : HeaterUart) (f : Frame) (hw : s.waiting_for_start = true)
    (hi : s.frame_index = 0) (h0 : f 0 = START_MARKER) :
    loopBody s (f 0) = some ⟨filled s f 1, [], Flow.next⟩ := by
  obtain ⟨t, g, idx, w⟩ := s
  simp only at hw hi
  subst hw hi
  have := update_filled g f 0 (by omega)
  simp only [Nat.not_lt_zero, if_false, Fin.mk_zero] at this
  simp [loopBody, h0, store, filled]
  rw [← h0, this]
  funext i; simp

theorem loopBody_filled (s : HeaterUart) (f : Frame) (k : Nat) (hk : k < 47)
    (h21 : k = 23 → f 21 ≠ END_OF_FRAME_MARKER) :
    loopBody (filled s f k) (f ⟨k, by omega⟩)
      = some ⟨filled s f (k + 1), [], Flow.next⟩ := by
  have hlt : k < 48 := by omega
  simp only [loopBody, filled, store, hlt, dite_true, update_filled, Bool.false_eq_true, if_false,
    TX_FRAME_END_INDEX, FRAME_SIZE]
  by_cases h23 : k = 23
  · subst h23
    have e21 : ((21 : Fin 48) : Nat) = 21 := rfl
    simp [h21 rfl, e21]
  · have h1 : ¬ (k + 1 = 24) := by omega
    have h2 : ¬ (k + 1 = 48) := by omega
    simp [h1, h2]

theorem loopBody_discard (s : HeaterUart) (f : Frame) (h21 : f 21 = END_OF_FRAME_MARKER) :
    loopBody (filled s f 23) (f 23)
      = some ⟨reset_frame (filled s f 24), [], Flow.returned⟩ := by
  have := update_filled s.frame f 23 (by omega)
  simp only [Fin.reduceFinMk] at this
  have e21 : ((21 : Fin 48) : Nat) = 21 := rfl
  simp [loopBody, filled, store, this, TX_FRAME_END_INDEX, h21, reset_frame, e21]

theorem loopBody_last (s : HeaterUart) (f : Frame) :
    loopBody (filled s f 47) (f 47)
      = some ⟨completed s f,
          if f 45 = END_OF_FRAME_MARKER ∧ f 24 = START_MARKER then [f] else [], Flow.next⟩ := by
  have := update_filled s.frame f 47 (by omega)
  simp only [Fin.reduceFinMk] at this
  have hf : (fun i : Fin 48 => if i.val < 48 then f i else s.frame i) = f := by
    funext i; simp
  simp only [hf] at this
  simp only [loopBody, filled, store, this, TX_FRAME_END_INDEX, FRAME_SIZE, reset_frame, completed,
    RX_FRAME_START_INDEX]
  by_cases h : f 45 = END_OF_FRAME_MARKER ∧ f 24 = START_MARKER
  · simp [h, this]
  · simp [h, this]

theorem bytes_length (f : Frame) : (bytes f).length = 48 := by
  simp only [bytes, List.length_ofFn]

theorem bytes_getElem (f : Frame) (k : Nat) (h : k < (bytes f).length) :
    (bytes f)[k] = f ⟨k, by rw [bytes_length] at h; exact h⟩ := by
  simp only [bytes, List.getElem_ofFn]

theorem drop_take_bytes_cons (f : Frame) (a b : Nat) (hab : a < b) (hb : b ≤ 48) :
    ((bytes f).take b).drop a = f ⟨a, by omega⟩ :: ((bytes f).take b).drop (a + 1) := by
  have hlen : a < ((bytes f).take b).length := by
    rw [List.length_take, bytes_length]; omega
  rw [List.drop_eq_getElem_cons hlen, List.getElem_take, bytes_getElem]

theorem drop_bytes_cons (f : Frame) (a : Nat) (ha : a < 48) :
    (bytes f).drop a = f ⟨a, ha⟩ :: (bytes f).drop (a + 1) := by
  have hlen : a < (bytes f).length := by rw [bytes_length]; exact ha
  rw [List.drop_eq_getElem_cons hlen, bytes_getElem]

theorem loop_cons_next (s s1 : HeaterUart) (byte : Byte) (rest : List Byte) (calls : List Frame)
    (h : loopBody s byte = some ⟨s1, calls, Flow.next⟩) :
    loop s (byte :: rest) = (loop s1 rest).map (Outcome.prepend calls) := by
  simp only [loop, h]

theorem loop_cons_returned (s s1 : HeaterUart) (byte : Byte) (rest : List Byte)
    (calls : List Frame) (h : loopBody s byte = some ⟨s1, calls, Flow.returned⟩) :
    loop s (byte :: rest) = some ⟨s1, rest, calls, Flow.returned⟩ := by
  simp only [loop, h]

theorem prepend_nil (r : Outcome) : Outcome.prepend [] r = r := rfl

theorem prepend_prepend (c1 c2 : List Frame) (r : Outcome) :
    Outcome.prepend c1 (Outcome.prepend c2 r) = Outcome.prepend (c1 ++ c2) r := by
  simp [Outcome.prepend]

theorem loop_append_next (s : HeaterUart) (xs ys : List Byte) (r : Outcome)
    (h : loop s xs = some r) (hf : r.flow = Flow.next) :
    loop s (xs ++ ys) = (loop r.state ys).map (Outcome.prepend r.parsed) := by
  induction xs generalizing s r with
  | nil =>
    simp only [loop, Option.some.injEq] at h
    subst h
    cases hl : loop s ys <;> simp [hl, Outcome.prepend]
  | cons x xs ih =>
    cases hb : loopBody s x with
    | none => simp [loop, hb] at h
    | some p =>
      obtain ⟨s1, calls, fl⟩ := p
      cases fl with
      | returned =>
        rw [loop_cons_returned s s1 x xs calls hb] at h
        simp only [Option.some.injEq] at h
        subst h
        simp at hf
      | next =>
        rw [loop_cons_next s s1 x xs calls hb] at h
        rw [List.cons_append, loop_cons_next s s1 x (xs ++ ys) calls hb]
        cases hl : loop s1 xs with
        | none => simp [hl] at h
        | some r1 =>
          simp only [hl, Option.map_some', Option.some.injEq] at h
          subst h
          simp only [Outcome.prepend] at hf
          rw [ih s1 r1 hl hf]
          cases hy : loop r1.state ys <;> simp [Outcome.prepend, hy]

theorem loop_slice (s : HeaterUart) (f : Frame) (d : Nat) :
    ∀ a : Nat, a + d ≤ 47 → (a ≤ 23 → 23 < a + d → f 21 ≠ END_OF_FRAME_MARKER) →
      loop (filled s f a) (((bytes f).take (a + d)).drop a)
        = some ⟨filled s f (a + d), [], [], Flow.next⟩ := by
  induction d with
  | zero =>
    intro a _ _
    have : ((bytes f).take (a + 0)).drop a = [] := by
      rw [List.drop_eq_nil_iff, List.length_take]; omega
    rw [this]
    rfl
  | succ d ih =>
    intro a ha h21
    rw [drop_take_bytes_cons f a (a + (d + 1)) (by omega) (by omega)]
    rw [loop_cons_next _ _ _ _ _ (loopBody_filled s f a (by omega) (fun h => h21 (by omega) (by omega)))]
    have e : a + (d + 1) = (a + 1) + d := by omega
    rw [e, ih (a + 1) (by omega) (fun h1 h2 => h21 (by omega) (by omega))]
    rfl

theorem loop_drop (s : HeaterUart) (f : Frame) (d : Nat) :
    ∀ j : Nat, j + d = 47 → (j ≤ 23 → f 21 ≠ END_OF_FRAME_MARKER) →
      loop (filled s f j) ((bytes f).drop j)
        = some ⟨completed s f, [],
            if f 45 = END_OF_FRAME_MARKER ∧ f 24 = START_MARKER then [f] else [], Flow.next⟩ := by
  induction d with
  | zero =>
    intro j hj _
    have : j = 47 := by omega
    subst this
    rw [drop_bytes_cons f 47 (by omega)]
    have hnil : (bytes f).drop 48 = [] := by
      rw [List.drop_eq_nil_iff, bytes_length]
    have e47 : f ⟨47, by omega⟩ = f 47 := rfl
    rw [hnil, e47, loop_cons_next _ _ _ _ _ (loopBody_last s f)]
    simp [loop, Outcome.prepend]
  | succ d ih =>
    intro j hj h21
    rw [drop_bytes_cons f j (by omega)]
    rw [loop_cons_next _ _ _ _ _ (loopBody_filled s f j (by omega) (fun h => h21 (by omega)))]
    rw [ih (j + 1) (by omega) (fun h1 => h21 (by omega))]
    rfl

theorem loop_take (s : HeaterUart) (f : Frame) (hw : s.waiting_for_start = true)
    (hi : s.frame_index = 0) (h0 : f 0 = START_MARKER) (i : Nat) (h1 : 1 ≤ i) (h47 : i ≤ 47)
    (h21 : 23 < i → f 21 ≠ END_OF_FRAME_MARKER) :
    loop s ((bytes f).take i) = some ⟨filled s f i, [], [], Flow.next⟩ := by
  have e : (bytes f).take i = ((bytes f).take i).drop 0 := rfl
  have e0 : f ⟨0, by omega⟩ = f 0 := rfl
  rw [e, drop_take_bytes_cons f 0 i (by omega) (by omega), e0]
  rw [loop_cons_next _ _ _ _ _ (loopBody_start s f hw hi h0)]
  have := loop_slice s f (i - 1) 1 (by omega) (fun _ h => h21 (by omega))
  have e2 : 1 + (i - 1) = i := by omega
  rw [e2] at this
  rw [this]
  rfl

theorem loop_frame (s : HeaterUart) (f : Frame) (hw : s.waiting_for_start = true)
    (hi : s.frame_index = 0) (h0 : f 0 = START_MARKER) (h21 : f 21 ≠ END_OF_FRAME_MARKER) :
    loop s (bytes f)
      = some ⟨completed s f, [],
          if f 45 = END_OF_FRAME_MARKER ∧ f 24 = START_MARKER then [f] else [], Flow.next⟩ := by
  have e : bytes f = (bytes f).drop 0 := rfl
  have e0 : f ⟨0, by omega⟩ = f 0 := rfl
  rw [e, drop_bytes_cons f 0 (by omega), e0]
  rw [loop_cons_next _ _ _ _ _ (loopBody_start s f hw hi h0)]
  rw [loop_drop s f 46 1 (by omega) (fun _ => h21)]
  rfl

theorem loopBody_inv (s : HeaterUart) (byte : Byte) (h : Inv s) :
    ∃ r, loopBody s byte = some r ∧ Inv r.state := by
  obtain ⟨t, g, idx, w⟩ := s
  rcases h with ⟨hw, hi⟩ | ⟨hw, h1, h47⟩
  · simp only at hw hi
    subst hw hi
    by_cases hb : byte = START_MARKER
    · simp [loopBody, store, hb, Inv]
    · simp [loopBody, hb, Inv]
  · simp only at hw h1 h47
    subst hw
    have hlt : idx < 48 := by omega
    simp only [loopBody, store, hlt, dite_true, Bool.false_eq_true, if_false]
    split_ifs <;> simp_all [Inv, reset_frame, FRAME_SIZE, TX_FRAME_END_INDEX]
    all_goals omega

theorem reachable_inv {s : HeaterUart} (h : Reachable s) : Inv s := by
  induction h with
  | init g => left; exact ⟨rfl, rfl⟩
  | pass _ hb ih =>
    obtain ⟨r1, h1, h2⟩ := loopBody_inv _ _ ih
    rw [hb] at h1
    cases h1
    exact h2

theorem seeking_index {s : HeaterUart} (h : Reachable s) (hw : s.waiting_for_start = true) :
    s.frame_index = 0 := by
  rcases reachable_inv h with ⟨_, hi⟩ | ⟨hw1, _, _⟩
  · exact hi
  · rw [hw] at hw1; cases hw1

theorem loop_idle (s : HeaterUart) (p : List Byte) (hw : s.waiting_for_start = true)
    (hp : ∀ b ∈ p, b ≠ START_MARKER) : loop s p = some ⟨s, [], [], Flow.next⟩ := by
  induction p with
  | nil => rfl
  | cons b rest ih =>
    have hb : loopBody s b = some ⟨s, [], Flow.next⟩ := by
      simp [loopBody, hw, hp b (List.mem_cons_self _ _)]
    rw [loop_cons_next s s b rest [] hb, ih (fun x hx => hp x (List.mem_cons_of_mem _ hx))]
    rfl

theorem feed_nil (n : Nat) (s : HeaterUart) : feed n s [] = some ⟨s, [], [], Flow.next⟩ := by
  cases n <;> rfl

theorem feed_succ (n : Nat) (s : HeaterUart) (p : List Byte) (r : Outcome) (hp : p ≠ [])
    (h : loop s p = some r) :
    feed (n + 1) s p = (feed n r.state r.pending).map (Outcome.prepend r.parsed) := by
  cases p with
  | nil => exact absurd rfl hp
  | cons b rest => simp only [feed, h]

/-- While fewer than 24 bytes can have been accumulated, one invocation of
`loop` consumes every byte without invoking `parse_frame`. -/
theorem loop_quiet (p : List Byte) : ∀ s : HeaterUart, Inv s → s.frame_index + p.length ≤ 24 →
    ∃ r, loop s p = some r ∧ r.pending = [] ∧ r.parsed = [] ∧
      r.state.telemetry = s.telemetry := by
  induction p with
  | nil => intro s _ _; exact ⟨_, rfl, rfl, rfl, rfl⟩
  | cons b rest ih =>
    intro s hinv hlen
    simp only [List.length_cons] at hlen
    obtain ⟨t, g, idx, w⟩ := s
    rcases hinv with ⟨hw, hi⟩ | ⟨hw, h1, h47⟩
    · simp only at hw hi
      subst hw hi
      by_cases hb : b = START_MARKER
      · have hbody : loopBody ⟨t, g, 0, true⟩ b
            = some ⟨⟨t, Function.update g ⟨0, by omega⟩ b, 1, false⟩, [], Flow.next⟩ := by
          simp [loopBody, store, hb]
        obtain ⟨r, hr, h1, h2, h3⟩ := ih ⟨t, Function.update g ⟨0, by omega⟩ b, 1, false⟩
          (Or.inr ⟨rfl, le_refl _, by norm_num⟩) (by simp only; omega)
        rw [loop_cons_next _ _ _ _ _ hbody, hr]
        exact ⟨_, rfl, h1, by simp [Outcome.prepend, h2], h3⟩
      · have hbody : loopBody ⟨t, g, 0, true⟩ b = some ⟨⟨t, g, 0, true⟩, [], Flow.next⟩ := by
          simp [loopBody, hb]
        obtain ⟨r, hr, h1, h2, h3⟩ := ih ⟨t, g, 0, true⟩ (Or.inl ⟨rfl, rfl⟩)
          (by simp only; omega)
        rw [loop_cons_next _ _ _ _ _ hbody, hr]
        exact ⟨_, rfl, h1, by simp [Outcome.prepend, h2], h3⟩
    · simp only at hw h1 h47 hlen
      subst hw
      have hlt : idx < 48 := by omega
      by_cases hd : idx + 1 = 24 ∧ Function.update g ⟨idx, hlt⟩ b 21 = END_OF_FRAME_MARKER
      · have hbody : loopBody ⟨t, g, idx, false⟩ b
            = some ⟨⟨t, Function.update g ⟨idx, hlt⟩ b, 0, true⟩, [], Flow.returned⟩ := by
          simp [loopBody, store, hlt, TX_FRAME_END_INDEX, hd, reset_frame]
        have hrest : rest = [] := List.length_eq_zero.mp (by omega)
        rw [loop_cons_returned _ _ _ _ _ hbody, hrest]
        exact ⟨_, rfl, rfl, rfl, rfl⟩
      · have h48 : ¬ (idx + 1 = 48) := by omega
        have hbody : loopBody ⟨t, g, idx, false⟩ b
            = some ⟨⟨t, Function.update g ⟨idx, hlt⟩ b, idx + 1, false⟩, [], Flow.next⟩ := by
          simp only [loopBody, store, hlt, dite_true, TX_FRAME_END_INDEX, FRAME_SIZE, hd, h48,
            if_false, Bool.false_eq_true]
        obtain ⟨r, hr, h1, h2, h3⟩ := ih ⟨t, Function.update g ⟨idx, hlt⟩ b, idx + 1, false⟩
          (Or.inr ⟨rfl, by simp only; omega, by simp only; omega⟩) (by simp only; omega)
        rw [loop_cons_next _ _ _ _ _ hbody, hr]
        exact ⟨_, rfl, h1, by simp [Outcome.prepend, h2], h3⟩

theorem loop_premature (s : HeaterUart) (f : Frame) (hw : s.waiting_for_start = true)
    (hi : s.frame_index = 0) (h0 : f 0 = START_MARKER) (h21 : f 21 = END_OF_FRAME_MARKER) :
    loop s (bytes f)
      = some ⟨reset_frame (filled s f 24), (bytes f).drop 24, [], Flow.returned⟩ := by
  have e1 := loop_take s f hw hi h0 23 (by omega) (by omega) (fun h => absurd h (by omega))
  have h := loop_append_next s ((bytes f).take 23) ((bytes f).drop 23) _ e1 rfl
  rw [List.take_append_drop] at h
  have e23 : f ⟨23, by omega⟩ = f 23 := rfl
  rw [h, drop_bytes_cons f 23 (by omega), e23,
    loop_cons_returned _ _ _ _ _ (loopBody_discard s f h21)]
  rfl

theorem loopBody_premature (s : HeaterUart) (byte : Byte) (h : prematureEnd s byte = true) :
    ∃ s1, loopBody s byte = some ⟨s1, [], Flow.returned⟩ ∧ s1.waiting_for_start = true ∧
      s1.frame_index = 0 ∧ s1.telemetry = s.telemetry := by
  obtain ⟨t, g, idx, w⟩ := s
  unfold prematureEnd at h
  cases w with
  | true => simp at h
  | false =>
    by_cases hlt : idx < 48
    · simp only [store, hlt, dite_true, Bool.not_false, Bool.true_and, Bool.and_eq_true,
        decide_eq_true_eq] at h
      refine ⟨⟨t, Function.update g ⟨idx, hlt⟩ byte, 0, true⟩, ?_, rfl, rfl, rfl⟩
      simp only [loopBody, store, hlt, dite_true, TX_FRAME_END_INDEX, h.1, h.2, reset_frame,
        Bool.false_eq_true, if_false, and_self, if_true]
    · simp [store, hlt] at h

theorem loopBody_not_premature (s : HeaterUart) (byte : Byte) (hinv : Inv s)
    (h : prematureEnd s byte = false) :
    ∃ s1 c, loopBody s byte = some ⟨s1, c, Flow.next⟩ ∧ Inv s1 := by
  obtain ⟨r, hr, hi⟩ := loopBody_inv s byte hinv
  obtain ⟨s1, c, fl⟩ := r
  cases fl with
  | next => exact ⟨s1, c, hr, hi⟩
  | returned =>
    exfalso
    obtain ⟨t, g, idx, w⟩ := s
    unfold prematureEnd at h
    cases w with
    | true =>
      by_cases hb : byte = START_MARKER
      · by_cases hlt : idx < 48 <;> simp [loopBody, store, hb, hlt] at hr
      · simp [loopBody, hb] at hr
    | false =>
      by_cases hlt : idx < 48
      · simp only [store, hlt, dite_true, Bool.not_false, Bool.true_and, Bool.and_eq_false_iff,
          decide_eq_false_iff_not] at h
        simp only [loopBody, store, hlt, dite_true, TX_FRAME_END_INDEX, FRAME_SIZE,
          Bool.false_eq_true, if_false] at hr
        split_ifs at hr with h1 h2 h3
        · rcases h with h | h
          · exact h h1.1
          · exact h h1.2
        all_goals simp at hr
      · simp [loopBody, store, hlt] at hr

theorem loop_shortCircuit (p : List Byte) :
    ∀ s : HeaterUart, Inv s → ∃ r, loop s p = some r ∧ ShortCircuit s p r := by
  induction p with
  | nil =>
    intro s _
    refine ⟨_, rfl, fun _ => ⟨rfl, rfl⟩, fun k hk => ?_⟩
    simp [firstDiscard] at hk
  | cons b rest ih =>
    intro s hinv
    cases hpe : prematureEnd s b with
    | true =>
      obtain ⟨s1, hb, hw, hi, ht⟩ := loopBody_premature s b hpe
      have hfd : firstDiscard s (b :: rest) = some 1 := by simp [firstDiscard, hpe]
      refine ⟨_, loop_cons_returned _ _ _ _ _ hb, fun h => ?_, fun k hk => ?_⟩
      · rw [hfd] at h; cases h
      · rw [hfd] at hk
        cases hk
        exact ⟨le_refl _, by simp, rfl, rfl, hw, hi, ⟨s, [], [], Flow.next⟩, b, rfl, rfl, rfl,
          by simp, hpe, ht, rfl⟩
    | false =>
      obtain ⟨s1, c, hb, hinv1⟩ := loopBody_not_premature s b hinv hpe
      obtain ⟨r1, hr1, hnone, hsome⟩ := ih s1 hinv1
      have hfd : firstDiscard s (b :: rest) = (firstDiscard s1 rest).map (· + 1) := by
        simp [firstDiscard, hpe, hb]
      refine ⟨Outcome.prepend c r1, by rw [loop_cons_next _ _ _ _ _ hb, hr1]; rfl,
        fun h => ?_, fun k hk => ?_⟩
      · rw [hfd] at h
        cases hfd1 : firstDiscard s1 rest with
        | none => exact hnone hfd1
        | some j => rw [hfd1] at h; cases h
      · rw [hfd] at hk
        cases hfd1 : firstDiscard s1 rest with
        | none => rw [hfd1] at hk; cases hk
        | some j =>
          rw [hfd1] at hk
          simp only [Option.map_some', Option.some.injEq] at hk
          subst hk
          obtain ⟨h1, h2, h3, h4, h5, h6, r0, b0, h7, h8, h9, h10, h11, h12, h13⟩ := hsome j hfd1
          obtain ⟨i, rfl⟩ : ∃ i, j = i + 1 := ⟨j - 1, by omega⟩
          simp only [Nat.add_sub_cancel] at h7 h10
          refine ⟨by omega, by simp only [List.length_cons]; omega, h3, h4, h5, h6,
            Outcome.prepend c r0, b0, ?_, h8, h9, ?_, h11, h12, ?_⟩
          · simp only [Nat.add_sub_cancel, List.take_succ_cons]
            rw [loop_cons_next _ _ _ _ _ hb, h7]; rfl
          · simp only [Nat.add_sub_cancel, List.getElem?_cons_succ]
            exact h10
          · simp [Outcome.prepend, h13]

theorem firstDiscard_of_prematureEnd (p : List Byte) :
    ∀ (s : HeaterUart) (k : Nat) (r0 : Outcome) (b : Byte), loop s (p.take k) = some r0 →
      r0.flow = Flow.next → p[k]? = some b → prematureEnd r0.state b = true →
      firstDiscard s p = some (k + 1) := by
  induction p with
  | nil => intro s k r0 b _ _ hb _; simp at hb
  | cons b0 rest ih =>
    intro s k r0 b hl hf hb hpe
    cases k with
    | zero =>
      simp only [List.take_zero, loop, Option.some.injEq] at hl
      subst hl
      simp only [List.getElem?_cons_zero, Option.some.injEq] at hb
      subst hb
      simp [firstDiscard, hpe]
    | succ k =>
      simp only [List.take_succ_cons, List.getElem?_cons_succ] at hl hb
      cases hbody : loopBody s b0 with
      | none => simp [loop, hbody] at hl
      | some q =>
        obtain ⟨s1, c, fl⟩ := q
        cases fl with
        | returned =>
          rw [loop_cons_returned _ _ _ _ _ hbody] at hl
          simp only [Option.some.injEq] at hl
          subst hl
          cases hf
        | next =>
          rw [loop_cons_next _ _ _ _ _ hbody] at hl
          cases hl1 : loop s1 (rest.take k) with
          | none => simp [hl1] at hl
          | some r1 =>
            simp only [hl1, Option.map_some', Option.some.injEq] at hl
            subst hl
            have hnp : prematureEnd s b0 = false := by
              cases hp : prematureEnd s b0 with
              | false => rfl
              | true =>
                obtain ⟨s2, h2, _⟩ := loopBody_premature s b0 hp
                rw [hbody] at h2
                simp at h2
            have := ih s1 k r1 b hl1 hf hb hpe
            simp [firstDiscard, hnp, hbody, this]

theorem loop_inv (p : List Byte) : ∀ s : HeaterUart, Inv s →
    ∃ r, loop s p = some r ∧ Inv r.state := by
  induction p with
  | nil => intro s h; exact ⟨_, rfl, h⟩
  | cons b rest ih =>
    intro s h
    obtain ⟨q, hq, hi⟩ := loopBody_inv s b h
    obtain ⟨s1, c, fl⟩ := q
    cases fl with
    | returned => exact ⟨_, loop_cons_returned _ _ _ _ _ hq, hi⟩
    | next =>
      obtain ⟨r, hr, hir⟩ := ih s1 hi
      refine ⟨Outcome.prepend c r, ?_, hir⟩
      rw [loop_cons_next _ _ _ _ _ hq, hr]; rfl

theorem loop_reachable (p : List Byte) : ∀ (s : HeaterUart) (r : Outcome), Reachable s →
    loop s p = some r → Reachable r.state := by
  induction p with
  | nil =>
    intro s r hs h
    simp only [loop, Option.some.injEq] at h
    subst h; exact hs
  | cons b rest ih =>
    intro s r hs h
    cases hq : loopBody s b with
    | none => simp [loop, hq] at h
    | some q =>
      have hq1 : Reachable q.state := Reachable.pass hs hq
      obtain ⟨s1, c, fl⟩ := q
      cases fl with
      | returned =>
        rw [loop_cons_returned _ _ _ _ _ hq] at h
        simp only [Option.some.injEq] at h
        subst h; exact hq1
      | next =>
        rw [loop_cons_next _ _ _ _ _ hq] at h
        cases hl : loop s1 rest with
        | none => simp [hl] at h
        | some r1 =>
          simp only [hl, Option.map_some', Option.some.injEq] at h
          subst h
          exact ih s1 r1 hq1 hl

theorem windowAt_cons (hist : List Byte) (m : Nat) (w : Frame) (b : Byte)
    (h : WindowAt hist m w) : WindowAt (b :: hist) (m + 1) w := by
  intro i
  have := h i
  rw [show m + 1 + (47 - i.val) = (m + (47 - i.val)) + 1 by omega, List.getElem?_cons_succ]
  exact this

theorem decoded_cons (hist : List Byte) (t : Telemetry) (b : Byte) (h : Decoded hist t) :
    Decoded (b :: hist) t := by
  rcases h with h | ⟨w, m, hv, hw, ht⟩
  · exact Or.inl h
  · exact Or.inr ⟨w, m + 1, hv, windowAt_cons hist m w b hw, ht⟩

theorem parse_frame_init (t : Telemetry) (f : Frame) :
    parse_frame t f 48 = parse_frame Telemetry.init f 48 := by
  rw [parse_frame_fields, parse_frame_fields]

theorem tracks_pass (hist : List Byte) (s : HeaterUart) (b : Byte) (r : Pass)
    (h : Tracks hist s) (hr : loopBody s b = some r) :
    Tracks (b :: hist) r.state ∧
      (r.parsed = [] ∨ ∃ w, r.parsed = [w] ∧ Validated w ∧ WindowAt (b :: hist) 0 w ∧
        r.state.telemetry = parse_frame Telemetry.init w 48) := by
  obtain ⟨hinv, hbuf, h0, h21, hdec⟩ := h
  obtain ⟨t, g, idx, w⟩ := s
  have hdec1 := decoded_cons hist t b hdec
  rcases hinv with ⟨hw, hi⟩ | ⟨hw, h1, h47⟩
  · simp only at hw hi
    subst hw hi
    by_cases hb : b = START_MARKER
    · simp only [loopBody, store, hb, if_true, Nat.lt_succ_of_le, Nat.zero_le, dite_true,
        Option.some.injEq] at hr
      subst hr
      refine ⟨⟨Or.inr ⟨rfl, le_refl _, by norm_num⟩, ?_, ?_, ?_, hb ▸ hdec1⟩, Or.inl rfl⟩
      · intro i hi
        simp only at hi
        have : i = 0 := Fin.ext (by simp only [Fin.val_zero]; omega)
        subst this
        simp [hb]
      · intro _; simp
      · intro _ h24; simp only at h24; omega
    · simp only [loopBody, hb, if_true, if_false, Option.some.injEq] at hr
      subst hr
      refine ⟨⟨Or.inl ⟨rfl, rfl⟩, ?_, ?_, ?_, hdec1⟩, Or.inl rfl⟩
      · intro i hi; simp only at hi; omega
      · intro h; simp at h
      · intro h; simp at h
  · simp only at hw h1 h47 hbuf h0 h21
    subst hw
    have hlt : idx < 48 := by omega
    have hbuf1 : ∀ i : Fin 48, i.val < idx + 1 →
        (b :: hist)[idx + 1 - 1 - i.val]? = some (Function.update g ⟨idx, hlt⟩ b i) := by
      intro i hi
      by_cases hie : i = ⟨idx, hlt⟩
      · subst hie
        simp
      · have hne : i.val ≠ idx := fun h => hie (Fin.ext h)
        have hlt1 : i.val < idx := by omega
        rw [Function.update_noteq hie]
        rw [show idx + 1 - 1 - i.val = (idx - 1 - i.val) + 1 by omega, List.getElem?_cons_succ]
        exact hbuf i hlt1
    have hz : Function.update g ⟨idx, hlt⟩ b 0 = START_MARKER := by
      have hne : (0 : Fin 48) ≠ ⟨idx, hlt⟩ := by
        intro h
        have := congrArg Fin.val h
        simp only [Fin.val_zero] at this
        omega
      rw [Function.update_noteq hne]
      exact h0 rfl
    simp only [loopBody, store, hlt, dite_true, Bool.false_eq_true, if_false,
      TX_FRAME_END_INDEX, FRAME_SIZE, RX_FRAME_START_INDEX] at hr
    split_ifs at hr with c1 c2 c3
    · simp only [Option.some.injEq] at hr; subst hr
      refine ⟨⟨Or.inl ⟨rfl, rfl⟩, ?_, ?_, ?_, hdec1⟩, Or.inl rfl⟩
      · intro i hi; simp only [reset_frame] at hi; omega
      · intro h; simp [reset_frame] at h
      · intro h; simp [reset_frame] at h
    · simp only [Option.some.injEq] at hr; subst hr
      have hwin : WindowAt (b :: hist) 0 (Function.update g ⟨idx, hlt⟩ b) := by
        intro i
        have := hbuf1 i (by omega)
        rw [show idx + 1 - 1 - i.val = 0 + (47 - i.val) by omega] at this
        exact this
      have hval : Validated (Function.update g ⟨idx, hlt⟩ b) := by
        refine ⟨hz, ?_, c3.2, c3.1⟩
        have hne : (21 : Fin 48) ≠ ⟨idx, hlt⟩ := by
          intro h
          have := congrArg Fin.val h
          simp only at this
          have e21 : ((21 : Fin 48) : Nat) = 21 := rfl
          omega
        rw [Function.update_noteq hne]
        exact h21 rfl (by omega)
      refine ⟨⟨Or.inl ⟨rfl, rfl⟩, ?_, ?_, ?_, ?_⟩, Or.inr ⟨_, rfl, hval, hwin, ?_⟩⟩
      · intro i hi; simp only [reset_frame] at hi; omega
      · intro h; simp [reset_frame] at h
      · intro h; simp [reset_frame] at h
      · exact Or.inr ⟨_, 0, hval, hwin, parse_frame_init t _⟩
      · exact parse_frame_init t _
    · simp only [Option.some.injEq] at hr; subst hr
      refine ⟨⟨Or.inl ⟨rfl, rfl⟩, ?_, ?_, ?_, hdec1⟩, Or.inl rfl⟩
      · intro i hi; simp only [reset_frame] at hi; omega
      · intro h; simp [reset_frame] at h
      · intro h; simp [reset_frame] at h
    · simp only [Option.some.injEq] at hr; subst hr
      refine ⟨⟨Or.inr ⟨rfl, by simp only; omega, by simp only; omega⟩, hbuf1, fun _ => hz, ?_,
        hdec1⟩, Or.inl rfl⟩
      intro _ h24
      simp only at h24
      have e21 : ((21 : Fin 48) : Nat) = 21 := rfl
      by_cases hidx : idx = 23
      · subst hidx
        intro hbad
        exact c1 ⟨rfl, hbad⟩
      · have hne : (21 : Fin 48) ≠ ⟨idx, hlt⟩ := by
          intro h
          have := congrArg Fin.val h
          simp only at this
          omega
        show Function.update g ⟨idx, hlt⟩ b 21 ≠ END_OF_FRAME_MARKER
        rw [Function.update_noteq hne]
        exact h21 rfl (by omega)

theorem windowAt_append (xs hist : List Byte) (m : Nat) (w : Frame) (h : WindowAt hist m w) :
    WindowAt (xs ++ hist) (xs.length + m) w := by
  induction xs with
  | nil => simpa using h
  | cons x xs ih =>
    have := windowAt_cons (xs ++ hist) (xs.length + m) w x ih
    rw [show (x :: xs).length + m = xs.length + m + 1 by simp only [List.length_cons]; omega]
    exact this

theorem decoded_append (xs hist : List Byte) (t : Telemetry) (h : Decoded hist t) :
    Decoded (xs ++ hist) t := by
  induction xs with
  | nil => exact h
  | cons x xs ih => exact decoded_cons _ t x ih

theorem run_cons (s : HeaterUart) (b : Byte) (rest : List Byte) (r : Pass)
    (h : loopBody s b = some r) :
    run s (b :: rest) = (run r.state rest).map (fun x => (x.1, r.parsed ++ x.2)) := by
  simp only [run, h]

theorem tracks_run (p : List Byte) : ∀ (hist : List Byte) (s : HeaterUart), Tracks hist s →
    ∃ s1 calls, run s p = some (s1, calls) ∧ Tracks (p.reverse ++ hist) s1 ∧
      ∀ w ∈ calls, Validated w ∧ ∃ m, WindowAt (p.reverse ++ hist) m w := by
  induction p with
  | nil =>
    intro hist s h
    exact ⟨s, [], rfl, h, fun w hw => absurd hw (List.not_mem_nil w)⟩
  | cons b rest ih =>
    intro hist s h
    obtain ⟨r, hr, _⟩ := loopBody_inv s b h.1
    obtain ⟨ht, hcall⟩ := tracks_pass hist s b r h hr
    obtain ⟨s1, calls, hrun, ht1, hw1⟩ := ih (b :: hist) r.state ht
    have e : (b :: rest).reverse ++ hist = rest.reverse ++ b :: hist := by
      rw [List.reverse_cons, List.append_assoc]; rfl
    refine ⟨s1, r.parsed ++ calls, ?_, e ▸ ht1, ?_⟩
    · rw [run_cons s b rest r hr, hrun]; rfl
    · intro w hw
      rw [e]
      rcases List.mem_append.mp hw with hw | hw
      · rcases hcall with hn | ⟨w0, hp, hv, hwin, _⟩
        · rw [hn] at hw; exact absurd hw (List.not_mem_nil w)
        · rw [hp, List.mem_singleton] at hw
          subst hw
          exact ⟨hv, _, windowAt_append rest.reverse (b :: hist) 0 w hwin⟩
      · exact hw1 w hw

theorem tracks_init (g : Frame) : Tracks [] (init g) :=
  ⟨Or.inl ⟨rfl, rfl⟩, fun i hi => absurd hi (Nat.not_lt_zero _), fun h => by simp [init] at h,
    fun h => by simp [init] at h, Or.inl rfl⟩

theorem window_of_windowAt (p : List Byte) (m : Nat) (w : Frame) (h : WindowAt p.reverse m w) :
    m + 48 ≤ p.length ∧ (p.drop (p.length - 48 - m)).take 48 = bytes w := by
  have h47 : m + 47 < p.length := by
    have := h 0
    simp only [Fin.val_zero, Nat.sub_zero] at this
    have hlt := (List.getElem?_eq_some_iff.mp this).1
    rw [List.length_reverse] at hlt
    exact hlt
  refine ⟨by omega, ?_⟩
  apply List.ext_getElem
  · rw [List.length_take, List.length_drop, bytes_length]; omega
  · intro i h1 h2
    have hi : i < 48 := by rw [bytes_length] at h2; exact h2
    rw [bytes_getElem, List.getElem_take, List.getElem_drop]
    have := h ⟨i, hi⟩
    simp only at this
    rw [List.getElem?_reverse (by omega)] at this
    have hidx : p.length - 1 - (m + (47 - i)) = p.length - 48 - m + i := by omega
    rw [hidx] at this
    have hlt : p.length - 48 - m + i < p.length := by omega
    rw [List.getElem?_eq_getElem hlt] at this
    exact Option.some.inj this

theorem run_append (xs ys : List Byte) : ∀ s : HeaterUart,
    run s (xs ++ ys) =
      (run s xs).bind (fun x => (run x.1 ys).map (fun y => (y.1, x.2 ++ y.2))) := by
  induction xs with
  | nil =>
    intro s
    simp only [List.nil_append, run, Option.some_bind, List.nil_append]
    cases run s ys <;> rfl
  | cons b rest ih =>
    intro s
    cases hb : loopBody s b with
    | none => simp [run, hb]
    | some r =>
      rw [List.cons_append, run_cons s b _ r hb, run_cons s b _ r hb, ih r.state]
      cases h1 : run r.state rest with
      | none => rfl
      | some x =>
        simp only [Option.map_some', Option.some_bind]
        cases h2 : run x.1 ys with
        | none => rfl
        | some y => simp [List.append_assoc]

/-- One invocation of `loop` consumes a leading part of the pending bytes, and
ends in the state, and with the `parse_frame` calls, of `run` on that part. -/
theorem run_of_loop (p : List Byte) : ∀ (s : HeaterUart) (r : Outcome), loop s p = some r →
    ∃ c, p = c ++ r.pending ∧ run s c = some (r.state, r.parsed) := by
  induction p with
  | nil =>
    intro s r h
    simp only [loop, Option.some.injEq] at h
    subst h
    exact ⟨[], rfl, rfl⟩
  | cons b rest ih =>
    intro s r h
    cases hb : loopBody s b with
    | none => simp [loop, hb] at h
    | some q =>
      obtain ⟨s1, calls, fl⟩ := q
      cases fl with
      | returned =>
        rw [loop_cons_returned _ _ _ _ _ hb] at h
        simp only [Option.some.injEq] at h
        subst h
        refine ⟨[b], rfl, ?_⟩
        rw [run_cons s b [] _ hb]
        simp [run]
      | next =>
        rw [loop_cons_next _ _ _ _ _ hb] at h
        cases hl : loop s1 rest with
        | none => simp [hl] at h
        | some r1 =>
          simp only [hl, Option.map_some', Option.some.injEq] at h
          subst h
          obtain ⟨c, hc, hrun⟩ := ih s1 r1 hl
          refine ⟨b :: c, by simp only [Outcome.prepend, List.cons_append]; rw [← hc], ?_⟩
          rw [run_cons s b c _ hb]
          simp only [hrun, Option.map_some', Outcome.prepend]

/-- Repeated invocations of `loop` consume a leading part of the pending bytes,
and end in the state, and with the `parse_frame` calls, of `run` on that part. -/
theorem run_of_feed (n : Nat) : ∀ (s : HeaterUart) (p : List Byte) (r : Outcome),
    feed n s p = some r → ∃ c, p = c ++ r.pending ∧ run s c = some (r.state, r.parsed) := by
  induction n with
  | zero =>
    intro s p r h
    simp only [feed, Option.some.injEq] at h
    subst h
    exact ⟨[], rfl, rfl⟩
  | succ n ih =>
    intro s p r h
    cases p with
    | nil =>
      simp only [feed, Option.some.injEq] at h
      subst h
      exact ⟨[], rfl, rfl⟩
    | cons b rest =>
      cases hl : loop s (b :: rest) with
      | none => simp [feed, hl] at h
      | some r1 =>
        rw [feed_succ n s (b :: rest) r1 (List.cons_ne_nil _ _) hl] at h
        cases hf : feed n r1.state r1.pending with
        | none => simp [hf] at h
        | some r2 =>
          simp only [hf, Option.map_some', Option.some.injEq] at h
          subst h
          obtain ⟨c1, hc1, hrun1⟩ := run_of_loop _ s r1 hl
          obtain ⟨c2, hc2, hrun2⟩ := ih r1.state r1.pending r2 hf
          refine ⟨c1 ++ c2, ?_, ?_⟩
          · simp only [Outcome.prepend]
            rw [List.append_assoc, ← hc2, ← hc1]
          · rw [run_append, hrun1]
            simp only [Option.some_bind, hrun2, Option.map_some', Outcome.prepend]

/-- An accumulating synchronizer resets within the bytes that fill the buffer:
either at fill count 24 or at fill count 48. -/
theorem reset_within (p : List Byte) : ∀ s : HeaterUart, Inv s → s.waiting_for_start = false →
    s.frame_index + p.length = 48 →
    ∃ j s1 calls, 1 ≤ j ∧ j ≤ p.length ∧ run s (p.take j) = some (s1, calls) ∧
      s1.waiting_for_start = true ∧ s1.frame_index = 0 ∧
      (s.frame_index + j = 24 ∨ s.frame_index + j = 48) := by
  induction p with
  | nil =>
    intro s hinv hw hlen
    rcases hinv with ⟨h, _⟩ | ⟨_, _, h47⟩
    · rw [hw] at h; cases h
    · simp only [List.length_nil] at hlen; omega
  | cons b rest ih =>
    intro s hinv hw hlen
    obtain ⟨t, g, idx, w⟩ := s
    simp only at hw
    subst hw
    simp only [List.length_cons] at hlen
    have hlt : idx < 48 := by omega
    by_cases c1 : idx + 1 = 24 ∧ Function.update g ⟨idx, hlt⟩ b 21 = END_OF_FRAME_MARKER
    · have hb : loopBody ⟨t, g, idx, false⟩ b
          = some ⟨⟨t, Function.update g ⟨idx, hlt⟩ b, 0, true⟩, [], Flow.returned⟩ := by
        simp [loopBody, store, hlt, TX_FRAME_END_INDEX, c1, reset_frame]
      refine ⟨1, ⟨t, Function.update g ⟨idx, hlt⟩ b, 0, true⟩, [] ++ [], le_refl _, by simp, ?_,
        rfl, rfl, Or.inl c1.1⟩
      simp only [List.take_succ_cons, List.take_zero]
      rw [run_cons _ b [] _ hb]
      rfl
    · by_cases c2 : idx + 1 = 48
      · obtain ⟨r, hr, hi⟩ := loopBody_inv ⟨t, g, idx, false⟩ b hinv
        have hst : r.state.waiting_for_start = true ∧ r.state.frame_index = 0 := by
          simp only [loopBody, store, hlt, dite_true, Bool.false_eq_true, if_false,
            TX_FRAME_END_INDEX, FRAME_SIZE, c1, c2, if_true] at hr
          split_ifs at hr <;> (simp only [Option.some.injEq] at hr; subst hr; exact ⟨rfl, rfl⟩)
        refine ⟨1, r.state, r.parsed ++ [], le_refl _, by simp, ?_, hst.1, hst.2, Or.inr c2⟩
        simp only [List.take_succ_cons, List.take_zero]
        rw [run_cons _ b [] _ hr]
        rfl
      · have hb : loopBody ⟨t, g, idx, false⟩ b
            = some ⟨⟨t, Function.update g ⟨idx, hlt⟩ b, idx + 1, false⟩, [], Flow.next⟩ := by
          simp only [loopBody, store, hlt, dite_true, Bool.false_eq_true, if_false,
            TX_FRAME_END_INDEX, FRAME_SIZE, c1, c2]
        obtain ⟨j, s1, calls, h1, h2, h3, h4, h5, h6⟩ :=
          ih ⟨t, Function.update g ⟨idx, hlt⟩ b, idx + 1, false⟩
            (Or.inr ⟨rfl, by simp only; omega, by simp only; omega⟩) rfl (by simp only; omega)
        refine ⟨j + 1, s1, [] ++ calls, by omega, by simp only [List.length_cons]; omega, ?_,
          h4, h5, ?_⟩
        · simp only [List.take_succ_cons]
          rw [run_cons _ b _ _ hb, h3]
          rfl
        · simp only at h6 ⊢
          omega

theorem agree_pass (s1 s2 : HeaterUart) (b : Byte) (h : AgreeWritten s1 s2) (hinv : Inv s1) :
    ∃ r1 r2, loopBody s1 b = some r1 ∧ loopBody s2 b = some r2 ∧
      AgreeWritten r1.state r2.state ∧ Inv r1.state ∧ r1.parsed = r2.parsed ∧
      r1.flow = r2.flow := by
  obtain ⟨t1, g1, idx1, w1⟩ := s1
  obtain ⟨t2, g2, idx2, w2⟩ := s2
  obtain ⟨ht, hi, hw, hf⟩ := h
  simp only at ht hi hw hf
  subst ht hi hw
  obtain ⟨r1, hr1, hinv1⟩ := loopBody_inv _ b hinv
  refine ⟨r1, ?_⟩
  rcases hinv with ⟨hw, hi⟩ | ⟨hw, h1, h47⟩
  · simp only at hw hi
    subst hw hi
    by_cases hb : b = START_MARKER
    · simp only [loopBody, store, hb, if_true, Nat.lt_succ_of_le, Nat.zero_le, dite_true,
        Option.some.injEq] at hr1 ⊢
      subst hr1
      refine ⟨_, rfl, rfl, ⟨rfl, rfl, rfl, ?_⟩, hinv1, rfl, rfl⟩
      intro i hi
      simp only at hi
      have : i = 0 := Fin.ext (by simp only [Fin.val_zero]; omega)
      subst this
      simp
    · simp only [loopBody, hb, if_true, if_false, Option.some.injEq] at hr1 ⊢
      subst hr1
      exact ⟨_, rfl, rfl, ⟨rfl, rfl, rfl, fun i hi => absurd hi (Nat.not_lt_zero _)⟩, hinv1,
        rfl, rfl⟩
  · simp only at hw h1 h47
    subst hw
    have hlt : idx1 < 48 := by omega
    have hupd : ∀ i : Fin 48, i.val < idx1 + 1 →
        Function.update g1 ⟨idx1, hlt⟩ b i = Function.update g2 ⟨idx1, hlt⟩ b i := by
      intro i hi
      by_cases hie : i = ⟨idx1, hlt⟩
      · subst hie; simp
      · have hne : i.val ≠ idx1 := fun h => hie (Fin.ext h)
        rw [Function.update_noteq hie, Function.update_noteq hie]
        exact hf i (by omega)
    have e21 : ((21 : Fin 48) : Nat) = 21 := rfl
    have e24 : ((24 : Fin 48) : Nat) = 24 := rfl
    have e45 : ((45 : Fin 48) : Nat) = 45 := rfl
    by_cases c1 : idx1 + 1 = 24 ∧ Function.update g1 ⟨idx1, hlt⟩ b 21 = END_OF_FRAME_MARKER
    · have c1' : idx1 + 1 = 24 ∧ Function.update g2 ⟨idx1, hlt⟩ b 21 = END_OF_FRAME_MARKER :=
        ⟨c1.1, by rw [← hupd 21 (by omega)]; exact c1.2⟩
      simp only [loopBody, store, hlt, dite_true, Bool.false_eq_true, if_false,
        TX_FRAME_END_INDEX, c1, c1', and_self, if_true, Option.some.injEq] at hr1 ⊢
      subst hr1
      exact ⟨_, rfl, rfl, ⟨rfl, rfl, rfl, fun i hi => absurd hi (Nat.not_lt_zero _)⟩, hinv1,
        rfl, rfl⟩
    · have c1' : ¬ (idx1 + 1 = 24 ∧
          Function.update g2 ⟨idx1, hlt⟩ b 21 = END_OF_FRAME_MARKER) := by
        rintro ⟨h24, hbad⟩
        exact c1 ⟨h24, by rw [hupd 21 (by omega)]; exact hbad⟩
      by_cases c2 : idx1 + 1 = 48
      · have hfeq : Function.update g1 ⟨idx1, hlt⟩ b = Function.update g2 ⟨idx1, hlt⟩ b := by
          funext i
          exact hupd i (by omega)
        simp only [loopBody, store, hlt, dite_true, Bool.false_eq_true, if_false,
          TX_FRAME_END_INDEX, FRAME_SIZE, c1, c1', c2, if_true, ← hfeq] at hr1 ⊢
        split_ifs at hr1 ⊢ with c3
        all_goals
          simp only [Option.some.injEq] at hr1
          subst hr1
          exact ⟨_, rfl, rfl, ⟨rfl, rfl, rfl, fun i hi => absurd hi (Nat.not_lt_zero _)⟩,
            hinv1, rfl, rfl⟩
      · simp only [loopBody, store, hlt, dite_true, Bool.false_eq_true, if_false,
          TX_FRAME_END_INDEX, FRAME_SIZE, c1, c1', c2, Option.some.injEq] at hr1 ⊢
        subst hr1
        exact ⟨_, rfl, rfl, ⟨rfl, rfl, rfl, hupd⟩, hinv1, rfl, rfl⟩

theorem agree_run (p : List Byte) : ∀ s1 s2 : HeaterUart, AgreeWritten s1 s2 → Inv s1 →
    ∃ e1 e2 calls, run s1 p = some (e1, calls) ∧ run s2 p = some (e2, calls) ∧
      AgreeWritten e1 e2 := by
  induction p with
  | nil => intro s1 s2 h _; exact ⟨s1, s2, [], rfl, rfl, h⟩
  | cons b rest ih =>
    intro s1 s2 h hinv
    obtain ⟨r1, r2, h1, h2, ha, hi, hp, _⟩ := agree_pass s1 s2 b h hinv
    obtain ⟨e1, e2, calls, hr1, hr2, hae⟩ := ih r1.state r2.state ha hi
    refine ⟨e1, e2, r1.parsed ++ calls, ?_, ?_, hae⟩
    · rw [run_cons s1 b rest r1 h1, hr1]; rfl
    · rw [run_cons s2 b rest r2 h2, hr2, hp]; rfl

theorem agree_loop (p : List Byte) : ∀ s1 s2 : HeaterUart, AgreeWritten s1 s2 → Inv s1 →
    ∃ r1 r2, loop s1 p = some r1 ∧ loop s2 p = some r2 ∧ AgreeWritten r1.state r2.state ∧
      r1.pending = r2.pending ∧ r1.parsed = r2.parsed ∧ r1.flow = r2.flow := by
  induction p with
  | nil => intro s1 s2 h _; exact ⟨_, _, rfl, rfl, h, rfl, rfl, rfl⟩
  | cons b rest ih =>
    intro s1 s2 h hinv
    obtain ⟨q1, q2, h1, h2, ha, hi, hp, hfl⟩ := agree_pass s1 s2 b h hinv
    obtain ⟨a1, c1, f1⟩ := q1
    obtain ⟨a2, c2, f2⟩ := q2
    simp only at ha hi hp hfl
    subst hp hfl
    cases f1 with
    | returned =>
      exact ⟨_, _, loop_cons_returned _ _ _ _ _ h1, loop_cons_returned _ _ _ _ _ h2, ha, rfl,
        rfl, rfl⟩
    | next =>
      obtain ⟨r1, r2, hl1, hl2, hae, e1, e2, e3⟩ := ih a1 a2 ha hi
      refine ⟨Outcome.prepend c1 r1, Outcome.prepend c1 r2, ?_, ?_, hae, e1, ?_, e3⟩
      · rw [loop_cons_next _ _ _ _ _ h1, hl1]; rfl
      · rw [loop_cons_next _ _ _ _ _ h2, hl2]; rfl
      · simp only [Outcome.prepend, e2]

theorem reachable_accumulatingState : Reachable accumulatingState :=
  loop_reachable _ _ _ (Reachable.init sampleGarbage)
    (loop_take (init sampleGarbage) sampleFrame rfl rfl (by decide) 5 (by omega) (by omega)
      (fun h => absurd h (by omega)))

/-! ## The claims -/

/-- C1: from every reachable state in SeekingStart mode, one invocation of `loop()` on the 48
bytes of a well-formed frame `f` (start markers at offsets 0 and 24, byte 21 not the end marker,
byte 45 the end marker) consumes them all, invokes `parse_frame` exactly once, on a buffer equal
to `f`, leaves the Telemetry equal to the decoder's output on `f`, and ends in SeekingStart with
fill count 0. -/
theorem C1_valid_frame_parsed_once (s : HeaterUart) (f : Frame) (hs : Reachable s)
    (hw : s.waiting_for_start = true) (h0 : f 0 = 0x76) (h21 : f 21 ≠ 0x00)
    (h24 : f 24 = 0x76) (h45 : f 45 = 0x00) :
    ∃ r, loop s (bytes f) = some r ∧ r.pending = [] ∧ r.parsed = [f] ∧
      r.state.telemetry = parse_frame s.telemetry f 48 ∧
      r.state.waiting_for_start = true ∧ r.state.frame_index = 0 := by
  refine ⟨_, loop_frame s f hw (seeking_index hs hw) h0 h21, rfl, ?_, ?_, rfl, rfl⟩
  · simp [h45, h24, END_OF_FRAME_MARKER, START_MARKER]
  · simp [completed, h45, h24, END_OF_FRAME_MARKER, START_MARKER, FRAME_SIZE]

theorem C1_valid_frame_parsed_once_witness :
    ∃ r, loop (init sampleGarbage) (bytes sampleFrame) = some r ∧ r.pending = [] ∧
      r.parsed = [sampleFrame] ∧
      r.state.telemetry = parse_frame (init sampleGarbage).telemetry sampleFrame 48 ∧
      r.state.waiting_for_start = true ∧ r.state.frame_index = 0 :=
  C1_valid_frame_parsed_once (init sampleGarbage) sampleFrame (Reachable.init _) rfl
    (by decide) (by decide) (by decide) (by decide)

/-- C2 (amended): for every 48-byte frame, with `R = frame[24..48)` and
`v(i) = 256*R[i] + R[i+1]`, which equals `(R[i] << 8) | R[i+1]` and lies in `0..65535`,
`parse_frame` sets fan speed to `v(6)` and heat-exchanger temperature to `v(10)` exactly, and it
sets supply voltage, fan voltage and glow-plug voltage to the single-precision rounding of the
double-precision product of `v(4)`, `v(8)`, `v(12)` with the `double` nearest 1/10, and glow-plug
current to that of `v(14)` with the `double` nearest 1/100: the bytes are combined before
scaling, and each scaled field lies within a relative error of `2^-23` of `v/10` (respectively
`v/100`).  In particular `R[4..6) = [0x00, 0x64]` gives supply voltage exactly 10. -/
theorem C2_two_byte_fields (t : Telemetry) (f : Frame) :
    let R : Fin 24 → Byte := fun i => f ⟨24 + i.val, by omega⟩
    let v : Fin 24 → ℕ := fun i => 256 * (R i).val + (R (i + 1)).val
    let T := parse_frame t f 48
    (∀ i, v i = ((R i).val <<< 8) ||| (R (i + 1)).val ∧ v i ≤ 65535) ∧
    T.fan_speed_value = v 6 ∧
    T.heat_exchanger_temp_value = v 10 ∧
    (T.measured_voltage = toFloat (toDouble (v 4 * toDouble (1 / 10))) ∧
      |T.measured_voltage - v 4 / 10| ≤ v 4 / 10 / 2 ^ 23) ∧
    (T.fan_voltage_value = toFloat (toDouble (v 8 * toDouble (1 / 10))) ∧
      |T.fan_voltage_value - v 8 / 10| ≤ v 8 / 10 / 2 ^ 23) ∧
    (T.glow_plug_voltage_value = toFloat (toDouble (v 12 * toDouble (1 / 10))) ∧
      |T.glow_plug_voltage_value - v 12 / 10| ≤ v 12 / 10 / 2 ^ 23) ∧
    (T.glow_plug_current_value = toFloat (toDouble (v 14 * toDouble (1 / 100))) ∧
      |T.glow_plug_current_value - v 14 / 100| ≤ v 14 / 100 / 2 ^ 23) ∧
    (R 4 = 0x00 → R 5 = 0x64 → T.measured_voltage = 10) := by
  intro R v T
  have hR : R = response_frame f := rfl
  have hbe : ∀ i, be16 (R i) (R (i + 1)) = ((v i : ℕ) : ℤ) := fun i => be16_eq _ _
  have hsc : ∀ (i : Fin 24) (q : ℚ), 0 < q →
      scaleToFloat (be16 (R i) (R (i + 1))) (toDouble q) = toFloat (toDouble (v i * toDouble q)) ∧
      |scaleToFloat (be16 (R i) (R (i + 1))) (toDouble q) - v i * q| ≤ v i * q / 2 ^ 23 :=
    fun i q hq => scaled_field _ _ q hq
  have e10 : ∀ x : ℚ, x * (1 / 10) = x / 10 := fun x => by ring
  have e100 : ∀ x : ℚ, x * (1 / 100) = x / 100 := fun x => by ring
  have hT : T = parse_frame t f 48 := rfl
  rw [parse_frame_fields, ← hR] at hT
  refine ⟨?_, ?_, ?_, ?_, ?_, ?_, ?_, ?_⟩
  · intro i
    have h := Nat.mul_add_lt_is_or (show (R (i + 1)).val < 2 ^ 8 from (R (i + 1)).isLt) (R i).val
    refine ⟨?_, be16_le _ _⟩
    simp only [v, Nat.shiftLeft_eq, Nat.mul_comm _ (2 ^ 8), ← h]
  · rw [hT]; exact hbe 6
  · rw [hT]
    show toFloat ((be16 (R 10) (R (10 + 1)) : ℤ) : ℚ) = _
    rw [hbe 10, Int.cast_natCast]
    exact toFloat_natCast _ (lt_of_le_of_lt (be16_le _ _) (by norm_num))
  · have := hsc 4 (1 / 10) (by norm_num)
    rw [e10] at this
    rw [hT]; exact this
  · have := hsc 8 (1 / 10) (by norm_num)
    rw [e10] at this
    rw [hT]; exact this
  · have := hsc 12 (1 / 10) (by norm_num)
    rw [e10] at this
    rw [hT]; exact this
  · have := hsc 14 (1 / 100) (by norm_num)
    rw [e100] at this
    rw [hT]; exact this
  · intro h4 h5
    rw [hT]
    show scaleToFloat (be16 (R 4) (R 5)) double_0_1 = 10
    rw [h4, h5]
    decide!

theorem C2_two_byte_fields_witness :
    (parse_frame Telemetry.init tenVoltFrame 48).measured_voltage = 10 :=
  (C2_two_byte_fields Telemetry.init tenVoltFrame).2.2.2.2.2.2.2 (by decide) (by decide)

/-- C2 as stated fails: with `R[4..6) = [0x00, 0x01]` the supply voltage `parse_frame` stores
is `13421773 / 2^27`, the `float` nearest `0.1`, which is not the rational `v(4)/10 = 1/10`. -/
theorem C2_exact_rational_counterexample :
    (parse_frame Telemetry.init oneTenthFrame 48).measured_voltage = 13421773 / 2 ^ 27 ∧
    ¬ ((parse_frame Telemetry.init oneTenthFrame 48).measured_voltage
      = ((256 * (oneTenthFrame 28).val + (oneTenthFrame 29).val : ℕ) : ℚ) / 10) := by
  decide!

/-- C3: for every byte sequence `p` none of whose bytes is `0x76` (of any length, the empty one
included) and every well-formed 48-byte frame `f`, one invocation of `loop()` on `p` followed by
the bytes of `f`, from a freshly constructed object, consumes every byte and yields the same
Telemetry, mode, fill count and `parse_frame` calls as one invocation on the bytes of `f` alone
from a freshly constructed object; that Telemetry is the decoder's output on `f`. -/
theorem C3_resync (g1 g2 : Frame) (p : List Byte) (f : Frame) (hp : ∀ b ∈ p, b ≠ 0x76)
    (h0 : f 0 = 0x76) (h21 : f 21 ≠ 0x00) (h24 : f 24 = 0x76) (h45 : f 45 = 0x00) :
    ∃ r1 r2, loop (init g1) (p ++ bytes f) = some r1 ∧ loop (init g2) (bytes f) = some r2 ∧
      r1.pending = [] ∧ r2.pending = [] ∧
      r1.state.telemetry = r2.state.telemetry ∧
      r1.state.waiting_for_start = r2.state.waiting_for_start ∧
      r1.state.frame_index = r2.state.frame_index ∧
      r1.parsed = r2.parsed ∧
      r2.state.telemetry = parse_frame Telemetry.init f 48 := by
  have hidle := loop_idle (init g1) p rfl hp
  have h1 := loop_append_next (init g1) p (bytes f) _ hidle rfl
  rw [loop_frame (init g1) f rfl rfl h0 h21] at h1
  refine ⟨_, _, h1, loop_frame (init g2) f rfl rfl h0 h21, rfl, rfl, ?_, rfl, rfl, rfl, ?_⟩
  · simp [completed, Outcome.prepend, init]
  · simp [completed, init, h45, h24, END_OF_FRAME_MARKER, START_MARKER, FRAME_SIZE]

theorem C3_resync_witness :
    ∃ r1 r2, loop (init sampleGarbage) ([0x00, 0x75, 0x77, 0xFF] ++ bytes sampleFrame) = some r1 ∧
      loop (init sampleGarbage) (bytes sampleFrame) = some r2 ∧
      r1.pending = [] ∧ r2.pending = [] ∧
      r1.state.telemetry = r2.state.telemetry ∧
      r1.state.waiting_for_start = r2.state.waiting_for_start ∧
      r1.state.frame_index = r2.state.frame_index ∧
      r1.parsed = r2.parsed ∧
      r2.state.telemetry = parse_frame Telemetry.init sampleFrame 48 :=
  C3_resync sampleGarbage sampleGarbage [0x00, 0x75, 0x77, 0xFF] sampleFrame (by simp)
    (by decide) (by decide) (by decide) (by decide)

/-- C4: from every reachable state in SeekingStart mode, one invocation of `loop()` on a 48-byte
candidate `f` with `f[0] = 0x76` and `f[21] != 0x00` whose byte 45 is not `0x00` or whose byte 24
is not `0x76` consumes every byte, never invokes `parse_frame`, leaves the Telemetry as it was
before `f`, and ends in SeekingStart with fill count 0. -/
theorem C4_marker_validation (s : HeaterUart) (f : Frame) (hs : Reachable s)
    (hw : s.waiting_for_start = true) (h0 : f 0 = 0x76) (h21 : f 21 ≠ 0x00)
    (hbad : f 45 ≠ 0x00 ∨ f 24 ≠ 0x76) :
    ∃ r, loop s (bytes f) = some r ∧ r.pending = [] ∧ r.parsed = [] ∧
      r.state.telemetry = s.telemetry ∧
      r.state.waiting_for_start = true ∧ r.state.frame_index = 0 := by
  have hno : ¬ (f 45 = END_OF_FRAME_MARKER ∧ f 24 = START_MARKER) := by
    rintro ⟨h1, h2⟩
    rcases hbad with h | h
    · exact h h1
    · exact h h2
  refine ⟨_, loop_frame s f hw (seeking_index hs hw) h0 h21, rfl, ?_, ?_, rfl, rfl⟩
  · simp only [if_neg hno]
  · simp only [completed, if_neg hno]

theorem C4_marker_validation_witness :
    ∃ r, loop (init sampleGarbage) (bytes misalignedFrame) = some r ∧ r.pending = [] ∧
      r.parsed = [] ∧ r.state.telemetry = (init sampleGarbage).telemetry ∧
      r.state.waiting_for_start = true ∧ r.state.frame_index = 0 :=
  C4_marker_validation (init sampleGarbage) misalignedFrame (Reachable.init _) rfl
    (by decide) (by decide) (Or.inr (by decide))

/-- C5: from every reachable state in SeekingStart mode, for every 48-byte sequence `f` with
`f[0] = 0x76` and `f[21] = 0x00`, whatever its other bytes are: the first invocation of `loop()`
on the bytes of `f` stops after byte 23, in SeekingStart with fill count 0, without a
`parse_frame` call and with bytes 24..47 still pending; and supplying all 48 bytes over as many
invocations as are needed (two are enough) consumes them all, never invokes `parse_frame` and
leaves the Telemetry unchanged. -/
theorem C5_premature_end_discard (s : HeaterUart) (f : Frame) (n : Nat) (hs : Reachable s)
    (hw : s.waiting_for_start = true) (h0 : f 0 = 0x76) (h21 : f 21 = 0x00) (hn : 2 ≤ n) :
    (∃ r1, loop s (bytes f) = some r1 ∧ r1.pending = (bytes f).drop 24 ∧ r1.parsed = [] ∧
      r1.state.telemetry = s.telemetry ∧ r1.state.waiting_for_start = true ∧
      r1.state.frame_index = 0) ∧
    (∃ r, feed n s (bytes f) = some r ∧ r.pending = [] ∧ r.parsed = [] ∧
      r.state.telemetry = s.telemetry) := by
  have hloop := loop_premature s f hw (seeking_index hs hw) h0 h21
  refine ⟨⟨_, hloop, rfl, rfl, rfl, rfl, rfl⟩, ?_⟩
  obtain ⟨m, rfl⟩ : ∃ m, n = m + 2 := ⟨n - 2, by omega⟩
  have hlen : ((bytes f).drop 24).length = 24 := by
    rw [List.length_drop, bytes_length]
  obtain ⟨r2, hr2, hp2, hc2, ht2⟩ := loop_quiet ((bytes f).drop 24) (reset_frame (filled s f 24))
    (Or.inl ⟨rfl, rfl⟩) (by rw [hlen]; simp [reset_frame])
  have hne : ∀ k, k < 48 → (bytes f).drop k ≠ [] := by
    intro k hk h
    have := congrArg List.length h
    rw [List.length_drop, bytes_length] at this
    simp at this
    omega
  have hfeed : feed (m + 2) s (bytes f) = some ⟨r2.state, [], r2.parsed, Flow.next⟩ := by
    rw [feed_succ (m + 1) s (bytes f) _ (hne 0 (by omega)) hloop]
    simp only []
    rw [feed_succ m _ _ _ (hne 24 (by omega)) hr2, hp2, feed_nil]
    simp only [Option.map_some', Outcome.prepend, List.append_nil, List.nil_append]
  exact ⟨_, hfeed, rfl, hc2, by rw [ht2]; rfl⟩

theorem C5_premature_end_discard_witness :
    (∃ r1, loop (init sampleGarbage) (bytes prematureFrame) = some r1 ∧
      r1.pending = (bytes prematureFrame).drop 24 ∧ r1.parsed = [] ∧
      r1.state.telemetry = (init sampleGarbage).telemetry ∧
      r1.state.waiting_for_start = true ∧ r1.state.frame_index = 0) ∧
    (∃ r, feed 2 (init sampleGarbage) (bytes prematureFrame) = some r ∧ r.pending = [] ∧
      r.parsed = [] ∧ r.state.telemetry = (init sampleGarbage).telemetry) :=
  C5_premature_end_discard (init sampleGarbage) prematureFrame 2 (Reachable.init _) rfl
    (by decide) (by decide) (by decide)

/-- C6: one invocation of `loop()` on the pending bytes `p`, from any reachable state, returns
an outcome such that: a byte whose consumption, after the bytes before it were consumed in this
invocation, brings the fill count to 24 with `frame[21] = 0x00` is the first premature end of
`p`; if the first premature end is the `k`-th byte, the invocation returns right after it, in
SeekingStart with fill count 0, with the Telemetry and `parse_frame` calls as they were before
that byte, and with exactly the bytes after the `k`-th still pending; if there is none, every
byte of `p` is consumed.  Hence the number of bytes consumed is the position of the first
premature end, or the length of `p` if there is none. -/
theorem C6_short_circuit (s : HeaterUart) (p : List Byte) (hs : Reachable s) :
    ∃ r, loop s p = some r ∧
      (∀ k r0 b, loop s (p.take k) = some r0 → r0.flow = Flow.next → p[k]? = some b →
        prematureEnd r0.state b = true → firstDiscard s p = some (k + 1)) ∧
      (∀ k, firstDiscard s p = some k →
        1 ≤ k ∧ k ≤ p.length ∧ r.flow = Flow.returned ∧ r.pending = p.drop k ∧
          r.state.waiting_for_start = true ∧ r.state.frame_index = 0 ∧
          ∃ r0 b, loop s (p.take (k - 1)) = some r0 ∧ r0.flow = Flow.next ∧ r0.pending = [] ∧
            p[k - 1]? = some b ∧ prematureEnd r0.state b = true ∧
            r.state.telemetry = r0.state.telemetry ∧ r.parsed = r0.parsed) ∧
      (firstDiscard s p = none → r.pending = [] ∧ r.flow = Flow.next) ∧
      p.length - r.pending.length = (firstDiscard s p).getD p.length := by
  obtain ⟨r, hr, hnone, hsome⟩ := loop_shortCircuit p s (reachable_inv hs)
  refine ⟨r, hr, firstDiscard_of_prematureEnd p s, hsome, hnone, ?_⟩
  cases hfd : firstDiscard s p with
  | none => simp [(hnone hfd).1]
  | some k =>
    obtain ⟨h1, h2, _, h4, _⟩ := hsome k hfd
    rw [h4, List.length_drop, Option.getD_some]
    omega

theorem C6_short_circuit_witness :
    ∃ r, loop (init sampleGarbage) interruptedSource = some r ∧ r.flow = Flow.returned ∧
      r.pending = interruptedSource.drop 24 ∧ r.state.waiting_for_start = true ∧
      r.state.frame_index = 0 := by
  obtain ⟨r, hr, _, hsome, _, _⟩ :=
    C6_short_circuit (init sampleGarbage) interruptedSource (Reachable.init _)
  obtain ⟨_, _, h3, h4, h5, h6, _⟩ := hsome 24 (by decide!)
  exact ⟨r, hr, h3, h4, h5, h6⟩

/-- C7: for every well-formed 48-byte frame `f` and all cut points `0 < i < j < 48`, three
invocations of `loop()` from a freshly constructed object, on `f[0..i)`, then `f[i..j)`, then
`f[j..48)`, each consume their bytes and together yield the same Telemetry, mode, fill count and
`parse_frame` calls as a single invocation on all of `f`; that Telemetry is the decoder's output
on `f`. -/
theorem C7_partial_delivery (g1 g2 : Frame) (f : Frame) (i j : Nat)
    (h0 : f 0 = 0x76) (h21 : f 21 ≠ 0x00) (h24 : f 24 = 0x76) (h45 : f 45 = 0x00)
    (hi : 0 < i) (hij : i < j) (hj : j < 48) :
    ∃ r1 r2 r3 r, loop (init g1) ((bytes f).take i) = some r1 ∧
      loop r1.state (((bytes f).take j).drop i) = some r2 ∧
      loop r2.state ((bytes f).drop j) = some r3 ∧
      loop (init g2) (bytes f) = some r ∧
      r1.pending = [] ∧ r2.pending = [] ∧ r3.pending = [] ∧ r.pending = [] ∧
      r3.state.telemetry = r.state.telemetry ∧
      r3.state.waiting_for_start = r.state.waiting_for_start ∧
      r3.state.frame_index = r.state.frame_index ∧
      r1.parsed ++ r2.parsed ++ r3.parsed = r.parsed ∧
      r.state.telemetry = parse_frame Telemetry.init f 48 := by
  have e1 := loop_take (init g1) f rfl rfl h0 i hi (by omega) (fun _ => h21)
  have e2 := loop_slice (init g1) f (j - i) i (by omega) (fun _ _ => h21)
  have hji : i + (j - i) = j := by omega
  rw [hji] at e2
  have e3 := loop_drop (init g1) f (47 - j) j (by omega) (fun _ => h21)
  refine ⟨_, _, _, _, e1, e2, e3, loop_frame (init g2) f rfl rfl h0 h21, rfl, rfl, rfl, rfl,
    ?_, rfl, rfl, ?_, ?_⟩
  · simp [completed, init]
  · simp
  · simp [completed, init, h45, h24, END_OF_FRAME_MARKER, START_MARKER, FRAME_SIZE]

theorem C7_partial_delivery_witness :
    ∃ r1 r2 r3 r, loop (init sampleGarbage) ((bytes sampleFrame).take 5) = some r1 ∧
      loop r1.state (((bytes sampleFrame).take 30).drop 5) = some r2 ∧
      loop r2.state ((bytes sampleFrame).drop 30) = some r3 ∧
      loop (init sampleGarbage) (bytes sampleFrame) = some r ∧
      r1.pending = [] ∧ r2.pending = [] ∧ r3.pending = [] ∧ r.pending = [] ∧
      r3.state.telemetry = r.state.telemetry ∧
      r3.state.waiting_for_start = r.state.waiting_for_start ∧
      r3.state.frame_index = r.state.frame_index ∧
      r1.parsed ++ r2.parsed ++ r3.parsed = r.parsed ∧
      r.state.telemetry = parse_frame Telemetry.init sampleFrame 48 :=
  C7_partial_delivery sampleGarbage sampleGarbage sampleFrame 5 30 (by decide) (by decide)
    (by decide) (by decide) (by decide) (by decide) (by decide)

/-- C8 (amended): for every 48-byte frame with command half `C = frame[0..24)` and response
half `R = frame[24..48)`, `parse_frame` sets set-temperature to `C[3]`, desired-temperature to
`C[4]`, the run-state code to `R[2]`, the error code to `R[17]`, the on/off value to 1 if
`R[3] = 1` and to 0 otherwise, and the pump frequency to the single-precision rounding of the
double-precision product of `R[16]` and the `double` nearest 1/10, which lies within
`R[16]/10 * 2^-23` of `R[16]/10`. -/
theorem C8_single_byte_fields (t : Telemetry) (f : Frame) :
    let C : Fin 24 → Byte := fun i => f ⟨i.val, by omega⟩
    let R : Fin 24 → Byte := fun i => f ⟨24 + i.val, by omega⟩
    let T := parse_frame t f 48
    T.set_temperature_value = (C 3).val ∧
    T.desired_temperature_value = (C 4).val ∧
    T.run_state_value = (R 2).val ∧
    T.error_code_value = (R 17).val ∧
    (T.pump_frequency_value = toFloat (toDouble ((R 16).val * toDouble (1 / 10))) ∧
      |T.pump_frequency_value - (R 16).val / 10| ≤ (R 16).val / 10 / 2 ^ 23) ∧
    (R 3 = 1 → T.on_off_value = 1) ∧ (R 3 ≠ 1 → T.on_off_value = 0) := by
  intro C R T
  have hR : R = response_frame f := rfl
  have hC : C = command_frame f := rfl
  have hT : T = parse_frame t f 48 := rfl
  rw [parse_frame_fields, ← hR, ← hC] at hT
  have h16 : (R 16).val < 2 ^ 53 := lt_trans (R 16).isLt (by norm_num)
  refine ⟨?_, ?_, ?_, ?_, ⟨?_, ?_⟩, ?_, ?_⟩
  · rw [hT]
    show toFloat ((((C 3).val : ℕ) : ℤ) : ℚ) = _
    rw [Int.cast_natCast]
    exact toFloat_natCast _ (lt_trans (C 3).isLt (by norm_num))
  · rw [hT]
  · rw [hT]
  · rw [hT]
  · rw [hT]
    show scaleToFloat (((R 16).val : ℕ) : ℤ) double_0_1 = _
    simp only [scaleToFloat, Int.cast_natCast, toDouble_natCast _ h16, double_0_1]
  · have h := scaleToFloat_error (R 16).val (1 / 10) h16 (by norm_num)
    have e : ((R 16).val : ℚ) * (1 / 10) = (R 16).val / 10 := by ring
    rw [e] at h
    rw [hT]
    exact h
  · intro h
    rw [hT]
    show (if R 3 = 1 then (1 : ℤ) else 0) = 1
    rw [if_pos h]
  · intro h
    rw [hT]
    show (if R 3 = 1 then (1 : ℤ) else 0) = 0
    rw [if_neg h]

theorem C8_single_byte_fields_witness :
    (parse_frame Telemetry.init switchedOnFrame 48).on_off_value = 1 ∧
      (parse_frame Telemetry.init slowPumpFrame 48).on_off_value = 0 :=
  ⟨(C8_single_byte_fields Telemetry.init switchedOnFrame).2.2.2.2.2.1 (by decide),
   (C8_single_byte_fields Telemetry.init slowPumpFrame).2.2.2.2.2.2 (by decide)⟩

/-- C8 as stated fails: with `R[16] = 0x01` the pump frequency `parse_frame` stores is
`13421773 / 2^27`, the `float` nearest `0.1`, which is not the rational `R[16]/10 = 1/10`. -/
theorem C8_exact_rational_counterexample :
    (parse_frame Telemetry.init slowPumpFrame 48).pump_frequency_value = 13421773 / 2 ^ 27 ∧
    ¬ ((parse_frame Telemetry.init slowPumpFrame 48).pump_frequency_value
      = ((slowPumpFrame 40).val : ℚ) / 10) := by
  decide!

/-- C9: for every 48-byte frame with response half `R = frame[24..48)`, the run-state
description `parse_frame` produces depends only on `R[2]` and the error description only on
`R[17]`; each is the entry of the static table for that code when the table has one: `R[2] = 5`
gives "Running", `R[2] = 0` gives "Off / Standby", `R[2] = 8` gives "Cooldown", `R[17] = 4` gives
"Ignition plug failure", `R[17] = 0` gives "No Error", `R[17] = 10` gives "Temperature sensor
failure"; and distinct codes within 0..8 (respectively 0..10) give distinct descriptions. -/
theorem C9_descriptions_from_tables (t : Telemetry) (f : Frame) :
    let R : Fin 24 → Byte := fun i => f ⟨24 + i.val, by omega⟩
    let T := parse_frame t f 48
    (∀ (t1 : Telemetry) (f1 : Frame), f1 26 = R 2 →
      (parse_frame t1 f1 48).run_state_description = T.run_state_description) ∧
    (∀ (t1 : Telemetry) (f1 : Frame), f1 41 = R 17 →
      (parse_frame t1 f1 48).error_code_description = T.error_code_description) ∧
    (∀ d : String, (((R 2).val : ℤ), d) ∈ run_state_map → T.run_state_description = d) ∧
    (∀ d : String, (((R 17).val : ℤ), d) ∈ error_code_map → T.error_code_description = d) ∧
    (R 2 = 5 → T.run_state_description = "Running") ∧
    (R 2 = 0 → T.run_state_description = "Off / Standby") ∧
    (R 2 = 8 → T.run_state_description = "Cooldown") ∧
    (R 17 = 4 → T.error_code_description = "Ignition plug failure") ∧
    (R 17 = 0 → T.error_code_description = "No Error") ∧
    (R 17 = 10 → T.error_code_description = "Temperature sensor failure") ∧
    (∀ (t1 : Telemetry) (f1 : Frame), (R 2).val ≤ 8 → (f1 26).val ≤ 8 → f1 26 ≠ R 2 →
      (parse_frame t1 f1 48).run_state_description ≠ T.run_state_description) ∧
    (∀ (t1 : Telemetry) (f1 : Frame), (R 17).val ≤ 10 → (f1 41).val ≤ 10 → f1 41 ≠ R 17 →
      (parse_frame t1 f1 48).error_code_description ≠ T.error_code_description) := by
  intro R T
  have h2 : R 2 = f 26 := rfl
  have h17 : R 17 = f 41 := rfl
  have hrs : T.run_state_description
      = describe run_state_map ((R 2).val : ℤ) "Unknown Run State" :=
    run_state_description_eq t f
  have hec : T.error_code_description
      = describe error_code_map ((R 17).val : ℤ) "Unknown Error Code" :=
    error_code_description_eq t f
  refine ⟨?_, ?_, ?_, ?_, ?_, ?_, ?_, ?_, ?_, ?_, ?_, ?_⟩
  · intro t1 f1 h
    rw [run_state_description_eq, hrs, h]
  · intro t1 f1 h
    rw [error_code_description_eq, hec, h]
  · intro d hd
    rw [hrs]; exact describe_of_mem_run_state _ d hd
  · intro d hd
    rw [hec]; exact describe_of_mem_error_code _ d hd
  · intro h; rw [hrs, h]; decide
  · intro h; rw [hrs, h]; decide
  · intro h; rw [hrs, h]; decide
  · intro h; rw [hec, h]; decide
  · intro h; rw [hec, h]; decide
  · intro h; rw [hec, h]; decide
  · intro t1 f1 ha hb hne heq
    rw [run_state_description_eq, hrs] at heq
    have := run_state_injective ⟨(f1 26).val, by omega⟩ ⟨(R 2).val, by omega⟩ heq
    apply hne
    apply Fin.ext
    exact Fin.mk.inj this
  · intro t1 f1 ha hb hne heq
    rw [error_code_description_eq, hec] at heq
    have := error_code_injective ⟨(f1 41).val, by omega⟩ ⟨(R 17).val, by omega⟩ heq
    apply hne
    apply Fin.ext
    exact Fin.mk.inj this

theorem C9_descriptions_from_tables_witness :
    (parse_frame Telemetry.init runningFrame 48).run_state_description = "Running" ∧
      (parse_frame Telemetry.init runningFrame 48).error_code_description
        = "Ignition plug failure" :=
  ⟨(C9_descriptions_from_tables Telemetry.init runningFrame).2.2.2.2.1 (by decide),
   (C9_descriptions_from_tables Telemetry.init runningFrame).2.2.2.2.2.2.2.1 (by decide)⟩

/-- C10: for every 48-byte frame with response half `R = frame[24..48)`, `parse_frame` produces
the run-state description "Unknown Run State" if and only if `9 <= R[2] <= 255`, and the error
description "Unknown Error Code" if and only if `11 <= R[17] <= 255`; `R[2] = 99` and
`R[17] = 255` give the two fallback strings; and the lookup never fails: `at` is only evaluated
on a key that is present. -/
theorem C10_unknown_code_fallback (t : Telemetry) (f : Frame) :
    let R : Fin 24 → Byte := fun i => f ⟨24 + i.val, by omega⟩
    let T := parse_frame t f 48
    (T.run_state_description = "Unknown Run State" ↔ (9 ≤ (R 2).val ∧ (R 2).val ≤ 255)) ∧
    (T.error_code_description = "Unknown Error Code" ↔ (11 ≤ (R 17).val ∧ (R 17).val ≤ 255)) ∧
    (R 2 = 99 → T.run_state_description = "Unknown Run State") ∧
    (R 17 = 255 → T.error_code_description = "Unknown Error Code") ∧
    (map_count run_state_map ((R 2).val : ℤ) ≠ 0 →
      ∃ d, map_at run_state_map ((R 2).val : ℤ) = some d) ∧
    (map_count error_code_map ((R 17).val : ℤ) ≠ 0 →
      ∃ d, map_at error_code_map ((R 17).val : ℤ) = some d) := by
  intro R T
  have hrs : T.run_state_description
      = describe run_state_map ((R 2).val : ℤ) "Unknown Run State" :=
    run_state_description_eq t f
  have hec : T.error_code_description
      = describe error_code_map ((R 17).val : ℤ) "Unknown Error Code" :=
    error_code_description_eq t f
  have b2 : (R 2).val ≤ 255 := Nat.le_of_lt_succ (R 2).isLt
  have b17 : (R 17).val ≤ 255 := Nat.le_of_lt_succ (R 17).isLt
  refine ⟨?_, ?_, ?_, ?_, map_at_of_count _ _, map_at_of_count _ _⟩
  · rw [hrs, run_state_unknown_iff]
    exact ⟨fun h => ⟨h, b2⟩, fun h => h.1⟩
  · rw [hec, error_code_unknown_iff]
    exact ⟨fun h => ⟨h, b17⟩, fun h => h.1⟩
  · intro h
    rw [hrs, run_state_unknown_iff, h]
    decide
  · intro h
    rw [hec, error_code_unknown_iff, h]
    decide

theorem C10_unknown_code_fallback_witness :
    (parse_frame Telemetry.init unknownCodesFrame 48).run_state_description
        = "Unknown Run State" ∧
      (parse_frame Telemetry.init unknownCodesFrame 48).error_code_description
        = "Unknown Error Code" :=
  ⟨(C10_unknown_code_fallback Telemetry.init unknownCodesFrame).2.2.1 (by decide),
   (C10_unknown_code_fallback Telemetry.init unknownCodesFrame).2.2.2.1 (by decide)⟩

/-- C11: from every reachable state in SeekingStart mode, one invocation of `loop()` on any
finite sequence of bytes none of which is `0x76` consumes them all and leaves the whole state
unchanged: every Telemetry field keeps its value, the fill count stays 0, the mode stays
SeekingStart, and `parse_frame` is not invoked. -/
theorem C11_unrelated_bytes_ignored (s : HeaterUart) (p : List Byte) (hs : Reachable s)
    (hw : s.waiting_for_start = true) (hp : ∀ b ∈ p, b ≠ 0x76) :
    ∃ r, loop s p = some r ∧ r.pending = [] ∧ r.parsed = [] ∧ r.state = s ∧
      r.state.telemetry = s.telemetry ∧ r.state.frame_index = 0 ∧
      r.state.waiting_for_start = true :=
  ⟨_, loop_idle s p hw hp, rfl, rfl, rfl, rfl, seeking_index hs hw, hw⟩

theorem C11_unrelated_bytes_ignored_witness :
    ∃ r, loop (init sampleGarbage) [0x00, 0x75, 0x77, 0xFF] = some r ∧ r.pending = [] ∧
      r.parsed = [] ∧ r.state = init sampleGarbage ∧
      r.state.telemetry = (init sampleGarbage).telemetry ∧ r.state.frame_index = 0 ∧
      r.state.waiting_for_start = true :=
  C11_unrelated_bytes_ignored (init sampleGarbage) [0x00, 0x75, 0x77, 0xFF] (Reachable.init _)
    rfl (by simp)

/-- C12: consuming any byte stream from a freshly constructed object, over however many
invocations of `loop()`, every buffer `w` handed to `parse_frame` satisfies `w[0] = 0x76`,
`w[21] != 0x00`, `w[24] = 0x76`, `w[45] = 0x00` and is a window of 48 consecutive bytes of the
stream; at the pass that makes the call, consuming the byte at position `n`, the buffer is the 48
bytes most recently consumed, `stream[n-47..n]`, and the Telemetry becomes the decoder's output on
it.  Consequently the Telemetry after any input is the initial Telemetry or the decoder's output
on such a window.  The `parse_frame` calls of any number of invocations of `loop()` on the stream
are among those. -/
theorem C12_only_validated_frames_decoded (g : Frame) (stream : List Byte) :
    ∃ s calls, run (init g) stream = some (s, calls) ∧
      (∀ w ∈ calls, (w 0 = 0x76 ∧ w 21 ≠ 0x00 ∧ w 24 = 0x76 ∧ w 45 = 0x00) ∧
        ∃ n, n + 48 ≤ stream.length ∧ (stream.drop n).take 48 = bytes w) ∧
      (∀ (n : Nat) (s0 : HeaterUart) (c0 : List Frame) (b : Byte) (r : Pass) (w : Frame),
        run (init g) (stream.take n) = some (s0, c0) → stream[n]? = some b →
        loopBody s0 b = some r → w ∈ r.parsed →
          48 ≤ n + 1 ∧ (stream.take (n + 1)).drop (n + 1 - 48) = bytes w ∧
          (w 0 = 0x76 ∧ w 21 ≠ 0x00 ∧ w 24 = 0x76 ∧ w 45 = 0x00) ∧
          r.state.telemetry = parse_frame s0.telemetry w 48) ∧
      (s.telemetry = Telemetry.init ∨
        ∃ w n, (w 0 = 0x76 ∧ w 21 ≠ 0x00 ∧ w 24 = 0x76 ∧ w 45 = 0x00) ∧
          n + 48 ≤ stream.length ∧ (stream.drop n).take 48 = bytes w ∧
          s.telemetry = parse_frame Telemetry.init w 48) ∧
      (∀ (k : Nat) (r : Outcome), feed k (init g) stream = some r → ∀ w ∈ r.parsed,
        (w 0 = 0x76 ∧ w 21 ≠ 0x00 ∧ w 24 = 0x76 ∧ w 45 = 0x00) ∧
          ∃ n, n + 48 ≤ stream.length ∧ (stream.drop n).take 48 = bytes w) := by
  have hwin : ∀ (p : List Byte) (w : Frame), (∃ m, WindowAt (p.reverse ++ []) m w) →
      ∃ n, n + 48 ≤ p.length ∧ (p.drop n).take 48 = bytes w := by
    rintro p w ⟨m, hm⟩
    rw [List.append_nil] at hm
    obtain ⟨h1, h2⟩ := window_of_windowAt p m w hm
    exact ⟨p.length - 48 - m, by omega, h2⟩
  obtain ⟨s, calls, hrun, htr, hcalls⟩ := tracks_run stream [] (init g) (tracks_init g)
  refine ⟨s, calls, hrun, fun w hw => ⟨(hcalls w hw).1, hwin stream w (hcalls w hw).2⟩,
    ?_, ?_, ?_⟩
  · intro n s0 c0 b r w hrun0 hb hr hw
    obtain ⟨s0', c0', hrun0', htr0, _⟩ := tracks_run (stream.take n) [] (init g) (tracks_init g)
    rw [hrun0] at hrun0'
    simp only [Option.some.injEq, Prod.mk.injEq] at hrun0'
    obtain ⟨rfl, rfl⟩ := hrun0'
    obtain ⟨_, hcall⟩ := tracks_pass _ s0 b r htr0 hr
    rcases hcall with hn | ⟨w0, hp, hv, hwin0, htel⟩
    · rw [hn] at hw; exact absurd hw (List.not_mem_nil w)
    · rw [hp, List.mem_singleton] at hw
      subst hw
      have hnlt : n < stream.length := (List.getElem?_eq_some_iff.mp hb).1
      have htake : stream.take (n + 1) = stream.take n ++ [b] := by
        rw [List.take_succ, hb]; rfl
      have hrev : (stream.take (n + 1)).reverse = b :: ((stream.take n).reverse ++ []) := by
        rw [htake, List.reverse_append, List.append_nil]; rfl
      rw [← hrev] at hwin0
      obtain ⟨h1, h2⟩ := window_of_windowAt _ 0 w hwin0
      have hlen : (stream.take (n + 1)).length = n + 1 := by
        rw [List.length_take]; omega
      rw [hlen] at h1 h2
      have hlen2 : ((stream.take (n + 1)).drop (n + 1 - 48)).length ≤ 48 := by
        rw [List.length_drop, hlen]; omega
      rw [Nat.sub_zero, List.take_of_length_le hlen2] at h2
      refine ⟨by omega, h2, hv, ?_⟩
      rw [htel, ← parse_frame_init]
  · rcases htr.2.2.2.2 with h | ⟨w, m, hv, hw, ht⟩
    · exact Or.inl h
    · obtain ⟨n, h1, h2⟩ := hwin stream w ⟨m, hw⟩
      exact Or.inr ⟨w, n, hv, h1, h2, ht⟩
  · intro k r hf w hw
    obtain ⟨c, hc, hrunc⟩ := run_of_feed k (init g) stream r hf
    have hall : run (init g) (c ++ r.pending) = some (s, calls) := by rw [← hc]; exact hrun
    rw [run_append, hrunc] at hall
    simp only [Option.some_bind] at hall
    cases hp : run r.state r.pending with
    | none => simp [hp] at hall
    | some y =>
      simp only [hp, Option.map_some', Option.some.injEq, Prod.mk.injEq] at hall
      have hmem : w ∈ calls := by
        rw [← hall.2]; exact List.mem_append_left _ hw
      exact ⟨(hcalls w hmem).1, hwin stream w (hcalls w hmem).2⟩

theorem C12_only_validated_frames_decoded_witness :
    ∃ s calls, run (init sampleGarbage) (bytes sampleFrame ++ bytes trailingFrame)
        = some (s, calls) ∧
      ∀ w ∈ calls, (w 0 = 0x76 ∧ w 21 ≠ 0x00 ∧ w 24 = 0x76 ∧ w 45 = 0x00) ∧
        ∃ n, n + 48 ≤ (bytes sampleFrame ++ bytes trailingFrame).length ∧
          ((bytes sampleFrame ++ bytes trailingFrame).drop n).take 48 = bytes w := by
  obtain ⟨s, calls, h1, h2, _⟩ :=
    C12_only_validated_frames_decoded sampleGarbage (bytes sampleFrame ++ bytes trailingFrame)
  exact ⟨s, calls, h1, h2⟩

/-- C13: for every reachable state and every byte, if the pass through the loop body that
consumes the byte does not bring the fill count to 48 with `frame[45] = 0x00` and
`frame[24] = 0x76`, then the Telemetry record, with its twelve values and two descriptions, is
the same before and after the pass, and `parse_frame` is not invoked. -/
theorem C13_telemetry_changes_only_on_valid_frame (s : HeaterUart) (byte : Byte) (r : Pass)
    (hs : Reachable s) (hr : loopBody s byte = some r) (hno : ¬ completesValidFrame s byte) :
    r.state.telemetry = s.telemetry ∧ r.parsed = [] := by
  obtain ⟨t, g, idx, w⟩ := s
  cases w with
  | true =>
    by_cases hb : byte = START_MARKER
    · by_cases hlt : idx < 48
      · simp only [loopBody, store, hb, hlt, dite_true, if_true, Option.some.injEq] at hr
        subst hr
        exact ⟨rfl, rfl⟩
      · simp [loopBody, store, hb, hlt] at hr
    · simp only [loopBody, hb, if_true, if_false, Option.some.injEq] at hr
      subst hr
      exact ⟨rfl, rfl⟩
  | false =>
    by_cases hlt : idx < 48
    · simp only [loopBody, store, hlt, dite_true, Bool.false_eq_true, if_false] at hr
      split_ifs at hr with h1 h2 h3
      · simp only [Option.some.injEq] at hr; subst hr; exact ⟨rfl, rfl⟩
      · exfalso
        apply hno
        exact ⟨rfl, ⟨t, Function.update g ⟨idx, hlt⟩ byte, idx + 1, false⟩,
          by simp only [store, hlt, dite_true], h2, h3.1, h3.2⟩
      · simp only [Option.some.injEq] at hr; subst hr; exact ⟨rfl, rfl⟩
      · simp only [Option.some.injEq] at hr; subst hr; exact ⟨rfl, rfl⟩
    · simp [loopBody, store, hlt] at hr

theorem C13_telemetry_changes_only_on_valid_frame_witness :
    (filled (init sampleGarbage) sampleFrame 6).telemetry = accumulatingState.telemetry ∧
      ([] : List Frame) = [] :=
  C13_telemetry_changes_only_on_valid_frame accumulatingState (sampleFrame ⟨5, by omega⟩)
    ⟨filled (init sampleGarbage) sampleFrame 6, [], Flow.next⟩ reachable_accumulatingState
    (loopBody_filled (init sampleGarbage) sampleFrame 5 (by omega) (fun h => absurd h (by omega)))
    (by
      rintro ⟨_, s1, hst, h48, _⟩
      simp only [store, accumulatingState, filled, Nat.reduceLT, dite_true,
        Option.some.injEq] at hst
      subst hst
      simp at h48)

/-- C14: for every 48-byte frame `f` and any two prior Telemetry records `t1` and `t2`,
`parse_frame` applied to `f` with length 48 produces the same Telemetry from `t1` as from `t2`:
all fourteen fields are overwritten by values that depend on `f` alone. -/
theorem C14_telemetry_recomputed_wholesale (t1 t2 : Telemetry) (f : Frame) :
    parse_frame t1 f 48 = parse_frame t2 f 48 := by
  rw [parse_frame_fields, parse_frame_fields]

/-- C15: for every buffer and every length `n` other than 48, `parse_frame(buffer, n)` returns
without changing anything: the Telemetry record is the same before and after the call. -/
theorem C15_short_frame_defence (t : Telemetry) (buffer : Frame) (n : Nat) (hn : n ≠ 48) :
    parse_frame t buffer n = t := by
  simp [parse_frame, hn]

theorem C15_short_frame_defence_witness :
    parse_frame Telemetry.init sampleFrame 47 = Telemetry.init :=
  C15_short_frame_defence Telemetry.init sampleFrame 47 (by decide)

/-- C16 (amended): the end-of-frame marker validated on frame completion sits at index 21
within the response half `R = frame[24..48)`, that is at offset 45 of the frame, not at the
response half's last byte: from every reachable state in SeekingStart mode, a 48-byte candidate
that reaches a fill count of 48 is handed to the decoder if and only if `R[21] = 0x00` and
`R[0] = 0x76`, whatever its last two bytes are, and a candidate with `R[21] != 0x00` is rejected
without a Telemetry update. -/
theorem C16_end_marker_offset (s : HeaterUart) (f : Frame) (hs : Reachable s)
    (hw : s.waiting_for_start = true) (h0 : f 0 = 0x76) (h21 : f 21 ≠ 0x00) :
    let R : Fin 24 → Byte := fun i => f ⟨24 + i.val, by omega⟩
    ∃ r, loop s (bytes f) = some r ∧ r.pending = [] ∧
      (r.parsed = [f] ∨ r.parsed = []) ∧
      (r.parsed = [f] ↔ (R 21 = 0x00 ∧ R 0 = 0x76)) ∧
      (R 21 ≠ 0x00 → r.parsed = [] ∧ r.state.telemetry = s.telemetry) := by
  intro R
  have h45 : R 21 = f 45 := rfl
  have h24 : R 0 = f 24 := rfl
  refine ⟨_, loop_frame s f hw (seeking_index hs hw) h0 h21, rfl, ?_, ?_, ?_⟩
  · by_cases h : f 45 = END_OF_FRAME_MARKER ∧ f 24 = START_MARKER
    · left; simp only [if_pos h]
    · right; simp only [if_neg h]
  · rw [h45, h24]
    by_cases h : f 45 = END_OF_FRAME_MARKER ∧ f 24 = START_MARKER
    · simp only [if_pos h, true_iff]; exact h
    · simp only [if_neg h]
      constructor
      · intro hc; cases hc
      · intro hc; exact absurd hc h
  · intro hne
    rw [h45] at hne
    have h : ¬ (f 45 = END_OF_FRAME_MARKER ∧ f 24 = START_MARKER) := fun hc => hne hc.1
    refine ⟨by simp only [if_neg h], ?_⟩
    simp only [completed, if_neg h]

theorem C16_end_marker_offset_witness :
    ∃ r, loop (init sampleGarbage) (bytes trailingFrame) = some r ∧ r.pending = [] ∧
      r.parsed = [trailingFrame] := by
  obtain ⟨r, h1, h2, _, h4, _⟩ := C16_end_marker_offset (init sampleGarbage) trailingFrame
    (Reachable.init _) rfl (by decide) (by decide)
  exact ⟨r, h1, h2, h4.mpr ⟨by decide, by decide⟩⟩

/-- C16 as stated fails: `trailingFrame` has `0x01` as the last byte of its response half, yet
one invocation of `loop()` on it hands it to `parse_frame` and the Telemetry becomes the
decoder's output on it. -/
theorem C16_last_byte_counterexample :
    trailingFrame 47 ≠ 0x00 ∧
      loop (init sampleGarbage) (bytes trailingFrame)
        = some ⟨completed (init sampleGarbage) trailingFrame, [], [trailingFrame], Flow.next⟩ ∧
      (completed (init sampleGarbage) trailingFrame).telemetry
        = parse_frame Telemetry.init trailingFrame 48 := by
  refine ⟨by decide, ?_, ?_⟩
  · rw [loop_frame (init sampleGarbage) trailingFrame rfl rfl (by decide) (by decide)]
    have h : trailingFrame 45 = END_OF_FRAME_MARKER ∧ trailingFrame 24 = START_MARKER :=
      ⟨by decide, by decide⟩
    simp only [if_pos h]
  · have h : trailingFrame 45 = END_OF_FRAME_MARKER ∧ trailingFrame 24 = START_MARKER :=
      ⟨by decide, by decide⟩
    simp only [completed, if_pos h]
    rfl

/-- C17: every reachable state is either in SeekingStart mode with fill count 0 or in
Accumulating mode with a fill count between 1 and 47.  Therefore the fill count is below 48, the
write `frame[frame_index++] = byte` is in bounds for every byte value, no pass through the loop
body and no invocation of `loop()` takes the out-of-bounds branch, and the state they end in is
again reachable.  The reads of `frame[21]`, `frame[24]` and `frame[45]` are in bounds by the type
of the buffer. -/
theorem C17_buffer_bounds (s : HeaterUart) (hs : Reachable s) :
    ((s.waiting_for_start = true ∧ s.frame_index = 0) ∨
      (s.waiting_for_start = false ∧ 1 ≤ s.frame_index ∧ s.frame_index ≤ 47)) ∧
    s.frame_index < 48 ∧
    (∀ byte : Byte, ∃ s1, store s byte = some s1 ∧ s1.frame_index ≤ 48) ∧
    (∀ byte : Byte, ∃ r, loopBody s byte = some r ∧ Reachable r.state) ∧
    (∀ p : List Byte, ∃ r, loop s p = some r ∧ Reachable r.state) := by
  have hinv := reachable_inv hs
  have hlt : s.frame_index < 48 := by
    rcases hinv with ⟨_, h⟩ | ⟨_, _, h⟩ <;> omega
  refine ⟨hinv, hlt, ?_, ?_, ?_⟩
  · intro byte
    refine ⟨{ s with frame := Function.update s.frame ⟨s.frame_index, hlt⟩ byte,
                     frame_index := s.frame_index + 1 },
      by simp only [store, hlt, dite_true], ?_⟩
    simp only; omega
  · intro byte
    obtain ⟨r, hr, _⟩ := loopBody_inv s byte hinv
    exact ⟨r, hr, Reachable.pass hs hr⟩
  · intro p
    obtain ⟨r, hr, _⟩ := loop_inv p s hinv
    exact ⟨r, hr, loop_reachable p s r hs hr⟩

theorem C17_buffer_bounds_witness :
    ∃ r, loop (init sampleGarbage) (bytes sampleFrame ++ bytes prematureFrame) = some r ∧
      Reachable r.state :=
  (C17_buffer_bounds (init sampleGarbage) (Reachable.init _)).2.2.2.2
    (bytes sampleFrame ++ bytes prematureFrame)

/-- C18: in every reachable state in SeekingStart mode, consuming a byte `0x76` stores it at
buffer position 0 and changes no other position, sets the fill count to 1, switches to
Accumulating and leaves the Telemetry unchanged.  This holds right after any reset: a pass that
takes the early `return` (premature end), or invokes `parse_frame` (accepted frame), or consumes
the 48th byte of a candidate (accepted or rejected frame), ends in SeekingStart with fill count
0, and a `0x76` as the very next byte starts a new frame at position 0. -/
theorem C18_start_marker_starts_frame (s : HeaterUart) (hs : Reachable s)
    (hw : s.waiting_for_start = true) :
    (∃ s1, loopBody s 0x76 = some ⟨s1, [], Flow.next⟩ ∧ s1.frame 0 = 0x76 ∧
      (∀ i : Fin 48, i ≠ 0 → s1.frame i = s.frame i) ∧ s1.frame_index = 1 ∧
      s1.waiting_for_start = false ∧ s1.telemetry = s.telemetry) ∧
    (∀ (s0 : HeaterUart) (byte : Byte) (r : Pass), Reachable s0 → loopBody s0 byte = some r →
      (r.flow = Flow.returned ∨ r.parsed ≠ [] ∨
        (s0.waiting_for_start = false ∧ s0.frame_index = 47)) →
      r.state.waiting_for_start = true ∧ r.state.frame_index = 0 ∧
        ∃ s1, loopBody r.state 0x76 = some ⟨s1, [], Flow.next⟩ ∧ s1.frame 0 = 0x76 ∧
          s1.frame_index = 1 ∧ s1.waiting_for_start = false ∧
          s1.telemetry = r.state.telemetry) := by
  have key : ∀ s : HeaterUart, s.waiting_for_start = true → s.frame_index = 0 →
      ∃ s1, loopBody s 0x76 = some ⟨s1, [], Flow.next⟩ ∧ s1.frame 0 = 0x76 ∧
        (∀ i : Fin 48, i ≠ 0 → s1.frame i = s.frame i) ∧ s1.frame_index = 1 ∧
        s1.waiting_for_start = false ∧ s1.telemetry = s.telemetry := by
    intro s hw hi
    obtain ⟨t, g, idx, w⟩ := s
    simp only at hw hi
    subst hw hi
    refine ⟨⟨t, Function.update g 0 0x76, 1, false⟩, ?_, ?_, ?_, rfl, rfl, rfl⟩
    · simp [loopBody, store, START_MARKER]
    · simp
    · intro i hi
      simp [Function.update, hi]
  refine ⟨key s hw (seeking_index hs hw), ?_⟩
  intro s0 byte r hs0 hr hreset
  have hr1 : Reachable r.state := Reachable.pass hs0 hr
  have hw1 : r.state.waiting_for_start = true := by
    have hinv0 := reachable_inv hs0
    obtain ⟨t, g, idx, w⟩ := s0
    cases w with
    | true =>
      rcases hinv0 with ⟨_, hi⟩ | ⟨hw0, _, _⟩
      · simp only at hi
        subst hi
        by_cases hb : byte = START_MARKER
        · simp only [loopBody, store, hb, if_true, Nat.lt_succ_of_le, Nat.zero_le, dite_true,
            Option.some.injEq] at hr
          subst hr
          simp at hreset
        · simp only [loopBody, hb, if_true, if_false, Option.some.injEq] at hr
          subst hr
          rfl
      · simp at hw0
    | false =>
      rcases hinv0 with ⟨hw0, _⟩ | ⟨_, h1, h47⟩
      · simp at hw0
      · simp only at h1 h47
        have hlt : idx < 48 := by omega
        simp only [loopBody, store, hlt, dite_true, Bool.false_eq_true, if_false] at hr
        split_ifs at hr with h1 h2 h3
        · simp only [Option.some.injEq] at hr; subst hr; rfl
        · simp only [Option.some.injEq] at hr; subst hr; rfl
        · simp only [Option.some.injEq] at hr; subst hr; rfl
        · simp only [Option.some.injEq] at hr; subst hr
          simp only [FRAME_SIZE] at h2
          simp at hreset
          omega
  have hi1 := seeking_index hr1 hw1
  obtain ⟨s1, h1, h2, _, h4, h5, h6⟩ := key r.state hw1 hi1
  exact ⟨hw1, hi1, s1, h1, h2, h4, h5, h6⟩

theorem C18_start_marker_starts_frame_witness :
    ∃ s1, loopBody (init sampleGarbage) 0x76 = some ⟨s1, [], Flow.next⟩ ∧ s1.frame 0 = 0x76 ∧
      (∀ i : Fin 48, i ≠ 0 → s1.frame i = (init sampleGarbage).frame i) ∧ s1.frame_index = 1 ∧
      s1.waiting_for_start = false ∧ s1.telemetry = (init sampleGarbage).telemetry :=
  (C18_start_marker_starts_frame (init sampleGarbage) (Reachable.init _) rfl).1

/-- C19: a reachable state in Accumulating mode has a fill count `k` with `1 <= k <= 47`, and
consuming any `48 - k` further bytes passes through a state in SeekingStart mode with fill count
0 after `j` of them, for some `1 <= j <= 48 - k`, where the fill count reached is 24 (premature
end) or 48.  So from any reachable state, whatever the next 47 bytes are, the synchronizer is in
SeekingStart mode with fill count 0 after at most 47 of them. -/
theorem C19_bounded_self_healing (s : HeaterUart) (hs : Reachable s) :
    (s.waiting_for_start = false →
      1 ≤ s.frame_index ∧ s.frame_index ≤ 47 ∧
      ∀ p : List Byte, p.length = 48 - s.frame_index →
        ∃ j s1 calls, 1 ≤ j ∧ j ≤ p.length ∧ run s (p.take j) = some (s1, calls) ∧
          s1.waiting_for_start = true ∧ s1.frame_index = 0 ∧
          (s.frame_index + j = 24 ∨ s.frame_index + j = 48)) ∧
    (∀ p : List Byte, 47 ≤ p.length →
      ∃ j s1 calls, j ≤ 47 ∧ run s (p.take j) = some (s1, calls) ∧
        s1.waiting_for_start = true ∧ s1.frame_index = 0) := by
  have hinv := reachable_inv hs
  have part1 : s.waiting_for_start = false →
      1 ≤ s.frame_index ∧ s.frame_index ≤ 47 ∧
      ∀ p : List Byte, p.length = 48 - s.frame_index →
        ∃ j s1 calls, 1 ≤ j ∧ j ≤ p.length ∧ run s (p.take j) = some (s1, calls) ∧
          s1.waiting_for_start = true ∧ s1.frame_index = 0 ∧
          (s.frame_index + j = 24 ∨ s.frame_index + j = 48) := by
    intro hw
    rcases hinv with ⟨h, _⟩ | ⟨_, h1, h47⟩
    · rw [hw] at h; cases h
    · exact ⟨h1, h47, fun p hp => reset_within p s (reachable_inv hs) hw (by omega)⟩
  refine ⟨part1, ?_⟩
  intro p hp
  cases hw : s.waiting_for_start with
  | true => exact ⟨0, s, [], Nat.zero_le _, rfl, hw, seeking_index hs hw⟩
  | false =>
    obtain ⟨h1, h47, hall⟩ := part1 hw
    obtain ⟨j, s1, calls, _, hj, hrun, hw1, hi1, _⟩ :=
      hall (p.take (48 - s.frame_index)) (by rw [List.length_take]; omega)
    rw [List.length_take] at hj
    rw [List.take_take] at hrun
    have hmin : min j (48 - s.frame_index) = j := by omega
    rw [hmin] at hrun
    exact ⟨j, s1, calls, by omega, hrun, hw1, hi1⟩

theorem C19_bounded_self_healing_witness :
    ∃ j s1 calls, 1 ≤ j ∧ j ≤ (List.replicate 43 (0xFF : Byte)).length ∧
      run accumulatingState ((List.replicate 43 (0xFF : Byte)).take j) = some (s1, calls) ∧
      s1.waiting_for_start = true ∧ s1.frame_index = 0 ∧
      (accumulatingState.frame_index + j = 24 ∨ accumulatingState.frame_index + j = 48) :=
  ((C19_bounded_self_healing accumulatingState reachable_accumulatingState).1 rfl).2.2
    (List.replicate 43 0xFF) rfl

/-- C20: `reset_frame` does not erase the buffer, yet its stale contents are never observed.
For any two states in SeekingStart mode with fill count 0 and equal Telemetry, whatever their
buffers hold, consuming the same byte sequence from each yields the same `parse_frame` calls,
equal Telemetry, equal mode and equal fill count, for every sequence and hence after every byte,
and buffers that agree below the fill count; the same holds for one invocation of `loop()`,
which also leaves the same bytes pending.  Every position read has been written since the last
reset: one pass through the loop body from a reachable state and from any state that agrees
with it on Telemetry, mode, fill count and the buffer positions below the fill count gives
outcomes that agree likewise. -/
theorem C20_stale_buffer_never_observed (s1 s2 : HeaterUart) (p : List Byte)
    (hw1 : s1.waiting_for_start = true) (hi1 : s1.frame_index = 0)
    (hw2 : s2.waiting_for_start = true) (hi2 : s2.frame_index = 0)
    (ht : s1.telemetry = s2.telemetry) :
    (∃ e1 e2 calls, run s1 p = some (e1, calls) ∧ run s2 p = some (e2, calls) ∧
      e1.telemetry = e2.telemetry ∧ e1.waiting_for_start = e2.waiting_for_start ∧
      e1.frame_index = e2.frame_index ∧
      ∀ i : Fin 48, i.val < e1.frame_index → e1.frame i = e2.frame i) ∧
    (∃ r1 r2, loop s1 p = some r1 ∧ loop s2 p = some r2 ∧
      r1.state.telemetry = r2.state.telemetry ∧
      r1.state.waiting_for_start = r2.state.waiting_for_start ∧
      r1.state.frame_index = r2.state.frame_index ∧ r1.pending = r2.pending ∧
      r1.parsed = r2.parsed) ∧
    (∀ (a1 a2 : HeaterUart) (byte : Byte), Reachable a1 → a1.telemetry = a2.telemetry →
      a1.frame_index = a2.frame_index → a1.waiting_for_start = a2.waiting_for_start →
      (∀ i : Fin 48, i.val < a1.frame_index → a1.frame i = a2.frame i) →
      ∃ q1 q2, loopBody a1 byte = some q1 ∧ loopBody a2 byte = some q2 ∧
        q1.state.telemetry = q2.state.telemetry ∧ q1.state.frame_index = q2.state.frame_index ∧
        q1.state.waiting_for_start = q2.state.waiting_for_start ∧ q1.parsed = q2.parsed ∧
        q1.flow = q2.flow ∧
        ∀ i : Fin 48, i.val < q1.state.frame_index → q1.state.frame i = q2.state.frame i) := by
  have hag : AgreeWritten s1 s2 :=
    ⟨ht, by rw [hi1, hi2], by rw [hw1, hw2], fun i hi => by rw [hi1] at hi; omega⟩
  have hinv : Inv s1 := Or.inl ⟨hw1, hi1⟩
  refine ⟨?_, ?_, ?_⟩
  · obtain ⟨e1, e2, calls, h1, h2, ha⟩ := agree_run p s1 s2 hag hinv
    exact ⟨e1, e2, calls, h1, h2, ha.1, ha.2.2.1, ha.2.1, ha.2.2.2⟩
  · obtain ⟨r1, r2, h1, h2, ha, hp, hc, _⟩ := agree_loop p s1 s2 hag hinv
    exact ⟨r1, r2, h1, h2, ha.1, ha.2.2.1, ha.2.1, hp, hc⟩
  · intro a1 a2 byte hr h1 h2 h3 h4
    obtain ⟨q1, q2, e1, e2, ha, _, hp, hfl⟩ :=
      agree_pass a1 a2 byte ⟨h1, h2, h3, h4⟩ (reachable_inv hr)
    exact ⟨q1, q2, e1, e2, ha.1, ha.2.1, ha.2.2.1, hp, hfl, ha.2.2.2⟩

theorem C20_stale_buffer_never_observed_witness :
    ∃ r1 r2, loop (init sampleGarbage) (bytes sampleFrame) = some r1 ∧
      loop (init otherGarbage) (bytes sampleFrame) = some r2 ∧
      r1.state.telemetry = r2.state.telemetry ∧
      r1.state.waiting_for_start = r2.state.waiting_for_start ∧
      r1.state.frame_index = r2.state.frame_index ∧ r1.pending = r2.pending ∧
      r1.parsed = r2.parsed :=
  (C20_stale_buffer_never_observed (init sampleGarbage) (init otherGarbage) (bytes sampleFrame)
    rfl rfl rfl rfl rfl).2.1

end HeaterUart
